import Mathlib

/-!
Shallow embedding of the cronos-conductor payment core
(`contracts/AgentPayGateway.sol`, `contracts/SettlementEngine.sol`,
`contracts/EscrowManager.sol`, and the `AgentWallet` contract).

Addresses and bytes32 words are modelled as `Nat` (0 is the zero
address / zero hash).  Proof byte strings are modelled as `Nat` and
`keccak256` as an explicit function parameter `hash : Nat → Nat`.
Solidity `require` failures revert the whole call: a reverting call is
modelled as `Except.error msg`, and committing a call's effects keeps
the pre-state on error (`runStep`-style wrappers below).  External
value transfers are modelled as emitted `Transfer` records; a reverted
call emits none.
-/

/-- An external value movement performed by a contract:
`(token, recipient, amount)`; `token = 0` is native CRO. -/
structure Transfer where
  token : Nat
  dest : Nat
  amount : Nat
  deriving DecidableEq, Repr

/-- Pointwise update of a map modelled as a function. -/
def updFn {β : Type} (f : Nat → β) (a : Nat) (b : β) : Nat → β :=
  fun x => if x = a then b else f x

namespace AgentWallet

/-- Solidity `1 days`, in seconds. -/
def oneDay : Nat := 86400

/-- The `struct SpendPermission` of `AgentWallet`. -/
structure SpendPermission where
  active : Bool
  maxPerTx : Nat
  dailyLimit : Nat
  spentToday : Nat
  lastResetTime : Nat
  totalSpent : Nat
  txCount : Nat
  expiry : Nat
  deriving DecidableEq, Repr

/-- Default (never-granted) permission: Solidity zero struct. -/
def SpendPermission.empty : SpendPermission :=
  ⟨false, 0, 0, 0, 0, 0, 0, 0⟩

/-- Contract storage of `AgentWallet` plus its native balance
(`address(this).balance`). -/
structure State where
  owner : Nat
  permissions : Nat → SpendPermission
  allowedRecipients : Nat → Nat → Bool
  hasAllowlist : Nat → Bool
  agents : List Nat
  isAgent : Nat → Bool
  balance : Nat

/-- Source `grantPermission(agent, maxPerTx, dailyLimit, durationSeconds)`:
owner-only; requires a nonzero agent, `maxPerTx > 0` and
`dailyLimit ≥ maxPerTx`; `expiry = durationSeconds > 0 ? now +
durationSeconds : 0`; preserves `totalSpent`/`txCount`, resets
`spentToday`/`lastResetTime`. -/
def grantPermission (st : State) (caller now agent maxPerTx dailyLimit durationSeconds : Nat) :
    Except String State :=
  if caller ≠ st.owner then .error "Not owner"
  else if agent = 0 then .error "Invalid agent"
  else if ¬ (maxPerTx > 0) then .error "maxPerTx must be > 0"
  else if ¬ (dailyLimit ≥ maxPerTx) then .error "dailyLimit must be >= maxPerTx"
  else
    let expiry := if durationSeconds > 0 then now + durationSeconds else 0
    let old := st.permissions agent
    let perm : SpendPermission :=
      { active := true, maxPerTx := maxPerTx, dailyLimit := dailyLimit,
        spentToday := 0, lastResetTime := now,
        totalSpent := old.totalSpent, txCount := old.txCount, expiry := expiry }
    let st := { st with permissions := updFn st.permissions agent perm }
    if st.isAgent agent then .ok st
    else .ok { st with agents := st.agents ++ [agent], isAgent := updFn st.isAgent agent true }

/-- Source `revokePermission(agent)`: owner-only; clears `active` only. -/
def revokePermission (st : State) (caller agent : Nat) : Except String State :=
  if caller ≠ st.owner then .error "Not owner"
  else
    let perm := st.permissions agent
    .ok { st with permissions := updFn st.permissions agent { perm with active := false } }

/-- Source `addAllowedRecipient(agent, recipient)`: owner-only; requires
`isAgent[agent]`; sets the allowlist entry and `hasAllowlist[agent]`. -/
def addAllowedRecipient (st : State) (caller agent recipient : Nat) : Except String State :=
  if caller ≠ st.owner then .error "Not owner"
  else if ¬ st.isAgent agent then .error "Not an agent"
  else .ok { st with
    allowedRecipients := fun a r =>
      if a = agent ∧ r = recipient then true else st.allowedRecipients a r,
    hasAllowlist := updFn st.hasAllowlist agent true }

/-- Source `removeAllowedRecipient(agent, recipient)`: owner-only; clears the
allowlist entry but never clears `hasAllowlist`. -/
def removeAllowedRecipient (st : State) (caller agent recipient : Nat) : Except String State :=
  if caller ≠ st.owner then .error "Not owner"
  else .ok { st with
    allowedRecipients := fun a r =>
      if a = agent ∧ r = recipient then false else st.allowedRecipients a r }

/-- The permission after the in-body daily reset of `agentExecute`
(`if block.timestamp >= lastResetTime + 1 days` then zero `spentToday`
and stamp `lastResetTime = now`). -/
def resetIfDue (perm : SpendPermission) (now : Nat) : SpendPermission :=
  if now ≥ perm.lastResetTime + oneDay then
    { perm with spentToday := 0, lastResetTime := now }
  else perm

/-- Source `agentExecute(to, amount, data)` (the external call itself is
modelled as succeeding; its calldata plays no role in the contract's
own logic).  The `onlyActiveAgent` modifier runs first, then the daily
reset, the limit checks, the allowlist check, the permission update,
and the value transfer out of the wallet balance. -/
def agentExecute (st : State) (caller now toAddr amount : Nat) :
    Except String (State × Transfer) :=
  let perm0 := st.permissions caller
  if ¬ perm0.active then .error "Not an active agent"
  else if ¬ (perm0.expiry = 0 ∨ now < perm0.expiry) then .error "Permission expired"
  else
    let perm := resetIfDue perm0 now
    if ¬ (amount ≤ perm.maxPerTx) then .error "Exceeds per-tx limit"
    else if ¬ (perm.spentToday + amount ≤ perm.dailyLimit) then .error "Exceeds daily limit"
    else if ¬ (amount ≤ st.balance) then .error "Insufficient wallet balance"
    else if st.hasAllowlist caller ∧ ¬ st.allowedRecipients caller toAddr then
      .error "Recipient not allowed"
    else
      let perm' := { perm with
        spentToday := perm.spentToday + amount,
        totalSpent := perm.totalSpent + amount,
        txCount := perm.txCount + 1 }
      .ok ({ st with permissions := updFn st.permissions caller perm',
                     balance := st.balance - amount },
           ⟨0, toAddr, amount⟩)

/-- The state a successful `agentExecute` commits: the (possibly
reset) permission with `spentToday`, `totalSpent` and `txCount` bumped,
and the spent amount gone from the wallet balance. -/
def afterSpend (st : State) (caller now amount : Nat) : State :=
  let perm := resetIfDue (st.permissions caller) now
  { st with
    permissions := updFn st.permissions caller
      { perm with
        spentToday := perm.spentToday + amount,
        totalSpent := perm.totalSpent + amount,
        txCount := perm.txCount + 1 },
    balance := st.balance - amount }

/-- Source `canSpend(agent, amount)` view: activity, expiry, per-tx limit,
wallet balance and reset-adjusted daily limit — it never reads the
allowlist. -/
def canSpend (st : State) (now agent amount : Nat) : Bool × String :=
  let perm := st.permissions agent
  if ¬ perm.active then (false, "Agent not active")
  else if perm.expiry > 0 ∧ now ≥ perm.expiry then (false, "Permission expired")
  else if amount > perm.maxPerTx then (false, "Exceeds per-tx limit")
  else if amount > st.balance then (false, "Insufficient wallet balance")
  else
    let spentToday := if now ≥ perm.lastResetTime + oneDay then 0 else perm.spentToday
    if spentToday + amount > perm.dailyLimit then (false, "Exceeds daily limit")
    else (true, "OK")

end AgentWallet

namespace Gateway

/-- Payment lifecycle states of `IAgentPay.PaymentStatus` (the
interface file is not part of the sources; the constructor set and the
`Pending`-first default follow the contract's use sites and the spec's
`Pending→{Executed,Cancelled,Refunded}` lifecycle). -/
inductive PaymentStatus where
  | Pending
  | Executed
  | Cancelled
  | Refunded
  deriving DecidableEq, Repr

/-- The `struct PaymentRequest`; `fromAddr`/`toAddr` model the Solidity
fields `from`/`to` (reserved words here). -/
structure PaymentRequest where
  id : Nat
  fromAddr : Nat
  toAddr : Nat
  token : Nat
  amount : Nat
  deadline : Nat
  conditionHash : Nat
  status : PaymentStatus
  deriving DecidableEq, Repr

/-- Solidity zero struct read from `payments[id]` for an unknown id. -/
def PaymentRequest.empty : PaymentRequest :=
  ⟨0, 0, 0, 0, 0, 0, 0, .Pending⟩

/-- Storage of `AgentPayGateway`. -/
structure State where
  payments : Nat → PaymentRequest
  userPayments : Nat → List Nat
  authorizedAgents : Nat → Bool
  protocolFee : Nat
  feeRecipient : Nat
  nonce : Nat

/-- Assignment `payments[paymentId].status = s`. -/
def setStatus (st : State) (paymentId : Nat) (s : PaymentStatus) : State :=
  { st with payments :=
      (updFn st.payments paymentId { (st.payments paymentId) with status := s }) }

/-- The fee taken by `executePayment`:
`fee = payment.amount * protocolFee / 10000` (integer division). -/
def feeOf (st : State) (p : PaymentRequest) : Nat :=
  p.amount * st.protocolFee / 10000

/-- The outgoing transfers of `executePayment`, computed against the
state `st` current when the funds move (net amount to the payee, then
the fee to `feeRecipient` when it is nonzero). -/
def disburse (st : State) (p : PaymentRequest) : List Transfer :=
  let fee := feeOf st p
  let netAmount := p.amount - fee
  ⟨p.token, p.toAddr, netAmount⟩ ::
    (if fee > 0 then [⟨p.token, st.feeRecipient, fee⟩] else [])

/-- Source `createPayment(to, token, amount, deadline, conditionHash)`.
`genId` models `keccak256(abi.encodePacked(msg.sender, to, amount,
nonce++, block.timestamp))`; `msgValue` is `msg.value`.  Returns the
new state, the payment id, and the amount that left the payer's
balance at creation: `msg.value` on the native path (only
`msg.value >= amount` is required and the excess stays with the
gateway) and exactly `amount` on the ERC20 `safeTransferFrom` path. -/
def createPayment (genId : Nat → Nat → Nat → Nat → Nat → Nat) (st : State)
    (caller now msgValue toAddr token amount deadline conditionHash : Nat) :
    Except String (State × Nat × Nat) :=
  if toAddr = 0 then .error "Invalid recipient"
  else if ¬ (amount > 0) then .error "Invalid amount"
  else if ¬ (deadline > now) then .error "Invalid deadline"
  else
    let paymentId := genId caller toAddr amount st.nonce now
    if token = 0 ∧ ¬ (msgValue ≥ amount) then .error "Insufficient CRO"
    else
      let payment : PaymentRequest :=
        { id := paymentId, fromAddr := caller, toAddr := toAddr, token := token,
          amount := amount, deadline := deadline, conditionHash := conditionHash,
          status := .Pending }
      .ok ({ st with
               payments := updFn st.payments paymentId payment,
               userPayments := updFn st.userPayments caller
                 (st.userPayments caller ++ [paymentId]),
               nonce := st.nonce + 1 },
           paymentId,
           if token = 0 then msgValue else amount)

/-- Source `executePayment(paymentId, proof)`: requires Pending status, an
unexpired deadline, an authorized caller (payer, payee, or an address
flagged in `authorizedAgents`), and a matching condition when
`conditionHash` is set; then writes `status = Executed` and only
after that disburses net amount and fee (the transfers are computed
against the already-updated state `st1`). -/
def executePayment (hash : Nat → Nat) (st : State)
    (caller now paymentId proofData : Nat) :
    Except String (State × List Transfer) :=
  let payment := st.payments paymentId
  if payment.status ≠ .Pending then .error "Invalid status"
  else if ¬ (now ≤ payment.deadline) then .error "Payment expired"
  else if ¬ (caller = payment.fromAddr ∨ caller = payment.toAddr ∨
             st.authorizedAgents caller) then .error "Not authorized"
  else if payment.conditionHash ≠ 0 ∧ hash proofData ≠ payment.conditionHash then
    .error "Condition not met"
  else
    let st1 := setStatus st paymentId .Executed
    .ok (st1, disburse st1 payment)

/-- Source `cancelPayment(paymentId)`: requires Pending status and
`msg.sender == payment.from`; no deadline check appears in the source;
refunds the full amount to the payer and sets `Cancelled`. -/
def cancelPayment (st : State) (caller paymentId : Nat) :
    Except String (State × List Transfer) :=
  let payment := st.payments paymentId
  if payment.status ≠ .Pending then .error "Invalid status"
  else if caller ≠ payment.fromAddr then .error "Not sender"
  else
    let st1 := setStatus st paymentId .Cancelled
    .ok (st1, [⟨payment.token, payment.fromAddr, payment.amount⟩])

/-- Source `refundPayment(paymentId)`: anyone, Pending-only, strictly after
the deadline; refunds the full amount to the payer, sets `Refunded`. -/
def refundPayment (st : State) (now paymentId : Nat) :
    Except String (State × List Transfer) :=
  let payment := st.payments paymentId
  if payment.status ≠ .Pending then .error "Invalid status"
  else if ¬ (now > payment.deadline) then .error "Not expired"
  else
    let st1 := setStatus st paymentId .Refunded
    .ok (st1, [⟨payment.token, payment.fromAddr, payment.amount⟩])

/-- One attempt of `executePayment` on a fixed payment id, with
transaction semantics: a reverted call leaves the state unchanged.
The `Bool` records whether the call succeeded. -/
def execAttempt (hash : Nat → Nat) (st : State) (paymentId : Nat)
    (call : Nat × Nat × Nat) : State × Bool :=
  match executePayment hash st call.1 call.2.1 paymentId call.2.2 with
  | .ok (st', _) => (st', true)
  | .error _ => (st, false)

/-- A sequence of `executePayment` calls on the same payment id,
returning the final state and how many of the calls succeeded. -/
def execSeq (hash : Nat → Nat) (st : State) (paymentId : Nat) :
    List (Nat × Nat × Nat) → State × Nat
  | [] => (st, 0)
  | call :: rest =>
      let (st', ok) := execAttempt hash st paymentId call
      let (stEnd, n) := execSeq hash st' paymentId rest
      (stEnd, (if ok then 1 else 0) + n)

end Gateway

namespace Engine

/-- Batch lifecycle states of `IAgentPay.BatchStatus` (interface file
not in the sources; constructors from the contract's use sites). -/
inductive BatchStatus where
  | Pending
  | Processing
  | Completed
  | Failed
  deriving DecidableEq, Repr

/-- The `struct SettlementBatch`. -/
structure SettlementBatch where
  id : Nat
  paymentIds : List Nat
  createdAt : Nat
  executedAt : Nat
  status : BatchStatus
  deriving DecidableEq, Repr

/-- Solidity zero struct read from `batches[id]` for an unknown id. -/
def SettlementBatch.empty : SettlementBatch :=
  ⟨0, [], 0, 0, .Pending⟩

/-- The `struct Leg` of a multi-leg transaction; `fromAddr`/`toAddr`
model the Solidity fields `from`/`to`. -/
structure Leg where
  fromAddr : Nat
  toAddr : Nat
  token : Nat
  amount : Nat
  executed : Bool
  deriving DecidableEq, Repr

/-- The `enum MultiLegStatus`. -/
inductive MultiLegStatus where
  | Pending
  | Executing
  | Completed
  | PartialFail
  | Reverted
  deriving DecidableEq, Repr

/-- The `struct MultiLegTx`. -/
structure MultiLegTx where
  id : Nat
  legs : List Leg
  createdAt : Nat
  status : MultiLegStatus
  deriving DecidableEq, Repr

/-- Solidity zero struct read from `multiLegTxs[id]`. -/
def MultiLegTx.empty : MultiLegTx :=
  ⟨0, [], 0, .Pending⟩

/-- Storage of `SettlementEngine` together with the gateway it calls
into; `selfAddr` is the engine contract's own address (the
`msg.sender` the gateway sees for the engine's calls). -/
structure State where
  selfAddr : Nat
  gw : Gateway.State
  batches : Nat → SettlementBatch
  batchPaymentStatus : Nat → Nat → Bool
  multiLegTxs : Nat → MultiLegTx
  nonce : Nat

/-- The `executeBatch` loop: attempt `gateway.executePayment(pid, "")`
for each id in order inside `try/catch` — a failed item leaves the
gateway state untouched and execution continues with the next item.
Returns the final gateway state and the per-index outcome list. -/
def runBatchItems (hash : Nat → Nat) (gw : Gateway.State) (sender now : Nat) :
    List Nat → Gateway.State × List Bool
  | [] => (gw, [])
  | pid :: rest =>
      match Gateway.executePayment hash gw sender now pid 0 with
      | .ok (gw', _) =>
          let (gwEnd, outs) := runBatchItems hash gw' sender now rest
          (gwEnd, true :: outs)
      | .error _ =>
          let (gwEnd, outs) := runBatchItems hash gw sender now rest
          (gwEnd, false :: outs)

/-- Source `executeBatch(batchId)`: requires a Pending batch; marks it
Processing, attempts every payment id in order recording per-index
outcomes, then stamps `executedAt` and the final status (`Completed`
iff zero failures, else `Failed`).  Returns the emitted
`(successCount, failCount)`. -/
def executeBatch (hash : Nat → Nat) (st : State) (now batchId : Nat) :
    Except String (State × Nat × Nat) :=
  let batch := st.batches batchId
  if batch.status ≠ .Pending then .error "Invalid batch status"
  else
    let (gw', outcomes) := runBatchItems hash st.gw st.selfAddr now batch.paymentIds
    let successCount := outcomes.count true
    let failCount := outcomes.count false
    let batch' := { batch with
      executedAt := now,
      status := if failCount = 0 then BatchStatus.Completed else BatchStatus.Failed }
    .ok ({ st with
             gw := gw',
             batches := updFn st.batches batchId batch',
             batchPaymentStatus := fun b i =>
               if b = batchId ∧ i < outcomes.length then outcomes.getD i false
               else st.batchPaymentStatus b i },
         successCount, failCount)

/-- The `executeMultiLegTx` loop, with the 0-based index of the leg
under execution: each leg creates a payment through the gateway
(condition hash = `keccak256(proofs[i])`, deadline one hour out,
`msg.value = amount` on the native path), executes it with the same
proof, and marks the leg executed.  The first reverting gateway call
aborts the recursion with its index and message; later legs are never
reached. -/
def runLegs (hash : Nat → Nat) (genId : Nat → Nat → Nat → Nat → Nat → Nat)
    (gw : Gateway.State) (sender now : Nat) :
    List Leg → List Nat → Nat → Except (Nat × String) (Gateway.State × List Leg)
  | [], _, _ => .ok (gw, [])
  | _ :: _, [], _ => .ok (gw, [])
  | leg :: legs, pf :: proofs, i =>
      match Gateway.createPayment genId gw sender now
          (if leg.token = 0 then leg.amount else 0)
          leg.toAddr leg.token leg.amount (now + 3600) (hash pf) with
      | .error e => .error (i, e)
      | .ok (gw1, paymentId, _) =>
          match Gateway.executePayment hash gw1 sender now paymentId pf with
          | .error e => .error (i, e)
          | .ok (gw2, _) =>
              match runLegs hash genId gw2 sender now legs proofs (i + 1) with
              | .error r => .error r
              | .ok (gwEnd, legsEnd) =>
                  .ok (gwEnd, { leg with executed := true } :: legsEnd)

/-- Source `executeMultiLegTx(txId, proofs)`: requires Pending status and one
proof per leg; transitions to Executing, runs the legs in order, and
on full success commits the executed legs with status Completed.  A
failing leg reverts the entire call (`Except.error`): the transient
Executing status, the created payments and every already-executed
leg are all rolled back with it. -/
def executeMultiLegTx (hash : Nat → Nat) (genId : Nat → Nat → Nat → Nat → Nat → Nat)
    (st : State) (now txId : Nat) (proofs : List Nat) : Except String State :=
  let mlTx := st.multiLegTxs txId
  if mlTx.status ≠ .Pending then .error "Invalid status"
  else if proofs.length ≠ mlTx.legs.length then .error "Proof count mismatch"
  else
    match runLegs hash genId st.gw st.selfAddr now mlTx.legs proofs 0 with
    | .error (_, e) => .error e
    | .ok (gw', legs') =>
        .ok { st with
                gw := gw',
                multiLegTxs := updFn st.multiLegTxs txId
                  { mlTx with legs := legs', status := .Completed } }

/-- The transaction record committed on full multi-leg success:
executed legs, status Completed. -/
def mlCompleted (mlTx : MultiLegTx) (legsNew : List Leg) : MultiLegTx :=
  { mlTx with legs := legsNew, status := .Completed }

/-- Transaction semantics of a top-level `executeMultiLegTx` call: a
revert leaves every contract's storage exactly as before the call. -/
def commitMultiLegTx (hash : Nat → Nat) (genId : Nat → Nat → Nat → Nat → Nat → Nat)
    (st : State) (now txId : Nat) (proofs : List Nat) : State :=
  match executeMultiLegTx hash genId st now txId proofs with
  | .ok st' => st'
  | .error _ => st

end Engine

namespace Escrow

/-- The `enum MilestoneEscrowStatus`. -/
inductive MStatus where
  | Active
  | Completed
  | Cancelled
  deriving DecidableEq, Repr

/-- The `struct Milestone`. -/
structure Milestone where
  description : String
  amount : Nat
  completed : Bool
  released : Bool
  deriving DecidableEq, Repr

/-- The `struct MilestoneEscrow`. -/
structure MilestoneEscrow where
  id : Nat
  depositor : Nat
  beneficiary : Nat
  arbiter : Nat
  token : Nat
  totalAmount : Nat
  milestones : List Milestone
  releasedAmount : Nat
  status : MStatus
  deriving DecidableEq, Repr

/-- Solidity zero struct read from `milestoneEscrows[id]`. -/
def MilestoneEscrow.empty : MilestoneEscrow :=
  ⟨0, 0, 0, 0, 0, 0, [], 0, .Active⟩

/-- Out-of-range default for milestone reads; every milestone access
in the source sits behind a `require(index < length)`, so this value
is never observable. -/
def mdefault : Milestone := ⟨"", 0, false, false⟩

/-- The milestone-escrow slice of `EscrowManager` storage. -/
structure State where
  milestoneEscrows : Nat → MilestoneEscrow
  protocolFee : Nat
  feeRecipient : Nat
  nonce : Nat

/-- Source `createMilestoneEscrow(beneficiary, arbiter, token, descriptions,
amounts)`: arrays must match, 1–20 milestones; locks
`totalAmount = Σ amounts` (native path requires
`msg.value ≥ totalAmount`) and stores the escrow Active with all
milestones incomplete and unreleased. -/
def createMilestoneEscrow (genId : Nat → Nat → Nat → Nat → Nat → Nat) (st : State)
    (caller now msgValue beneficiary arbiter token : Nat)
    (descriptions : List String) (amounts : List Nat) :
    Except String (State × Nat) :=
  if descriptions.length ≠ amounts.length then .error "Array mismatch"
  else if ¬ (descriptions.length > 0 ∧ descriptions.length ≤ 20) then
    .error "Invalid milestone count"
  else
    let totalAmount := amounts.sum
    if token = 0 ∧ ¬ (msgValue ≥ totalAmount) then .error "Insufficient CRO"
    else
      let escrowId := genId caller beneficiary totalAmount st.nonce now
      let mEscrow : MilestoneEscrow :=
        { id := escrowId, depositor := caller, beneficiary := beneficiary,
          arbiter := arbiter, token := token, totalAmount := totalAmount,
          milestones := (descriptions.zip amounts).map
            (fun d => ⟨d.1, d.2, false, false⟩),
          releasedAmount := 0, status := .Active }
      .ok ({ st with
               milestoneEscrows := updFn st.milestoneEscrows escrowId mEscrow,
               nonce := st.nonce + 1 },
           escrowId)

/-- Source `completeMilestone(escrowId, milestoneIndex)`: depositor or
arbiter only, Active escrow, valid index, not already completed. -/
def completeMilestone (st : State) (caller escrowId milestoneIndex : Nat) :
    Except String State :=
  let mEscrow := st.milestoneEscrows escrowId
  if mEscrow.status ≠ .Active then .error "Invalid status"
  else if ¬ (caller = mEscrow.depositor ∨ caller = mEscrow.arbiter) then
    .error "Not authorized"
  else if ¬ (milestoneIndex < mEscrow.milestones.length) then .error "Invalid index"
  else
    let m := mEscrow.milestones.getD milestoneIndex mdefault
    if m.completed then .error "Already completed"
    else .ok { st with
      milestoneEscrows := updFn st.milestoneEscrows escrowId
        { mEscrow with milestones :=
            mEscrow.milestones.set milestoneIndex { m with completed := true } } }

/-- Source `releaseMilestone(escrowId, milestoneIndex)`: Active escrow, valid
index, milestone completed and not yet released; marks it released,
adds its amount to `releasedAmount`, pays `amount - fee` to the
beneficiary (plus the fee to `feeRecipient` when nonzero), and sets
the escrow Completed when every milestone is now released. -/
def releaseMilestone (st : State) (escrowId milestoneIndex : Nat) :
    Except String (State × List Transfer) :=
  let mEscrow := st.milestoneEscrows escrowId
  if mEscrow.status ≠ .Active then .error "Invalid status"
  else if ¬ (milestoneIndex < mEscrow.milestones.length) then .error "Invalid index"
  else
    let m := mEscrow.milestones.getD milestoneIndex mdefault
    if ¬ m.completed then .error "Not completed"
    else if m.released then .error "Already released"
    else
      let milestones' := mEscrow.milestones.set milestoneIndex { m with released := true }
      let fee := m.amount * st.protocolFee / 10000
      let netAmount := m.amount - fee
      let allReleased := milestones'.all (fun x => x.released)
      let mEscrow' := { mEscrow with
        milestones := milestones',
        releasedAmount := mEscrow.releasedAmount + m.amount,
        status := if allReleased then MStatus.Completed else mEscrow.status }
      .ok ({ st with milestoneEscrows := updFn st.milestoneEscrows escrowId mEscrow' },
           ⟨mEscrow.token, mEscrow.beneficiary, netAmount⟩ ::
             (if fee > 0 then [⟨mEscrow.token, st.feeRecipient, fee⟩] else []))

/-- The state a successful `completeMilestone` commits. -/
def afterComplete (st : State) (escrowId milestoneIndex : Nat) : State :=
  let mEscrow := st.milestoneEscrows escrowId
  let m := mEscrow.milestones.getD milestoneIndex mdefault
  { st with
    milestoneEscrows := updFn st.milestoneEscrows escrowId
      { mEscrow with milestones :=
          mEscrow.milestones.set milestoneIndex { m with completed := true } } }

/-- The state a successful `releaseMilestone` commits. -/
def afterRelease (st : State) (escrowId milestoneIndex : Nat) : State :=
  let mEscrow := st.milestoneEscrows escrowId
  let m := mEscrow.milestones.getD milestoneIndex mdefault
  let milestonesNew := mEscrow.milestones.set milestoneIndex { m with released := true }
  { st with
    milestoneEscrows := updFn st.milestoneEscrows escrowId
      { mEscrow with
        milestones := milestonesNew,
        releasedAmount := mEscrow.releasedAmount + m.amount,
        status := if milestonesNew.all (fun x => x.released) then MStatus.Completed
                  else mEscrow.status } }

/-- The escrow record a successful `createMilestoneEscrow` stores. -/
def createdEscrow (escrowId caller beneficiary arbiter token : Nat)
    (descriptions : List String) (amounts : List Nat) : MilestoneEscrow :=
  { id := escrowId, depositor := caller, beneficiary := beneficiary,
    arbiter := arbiter, token := token, totalAmount := amounts.sum,
    milestones := (descriptions.zip amounts).map (fun d => ⟨d.1, d.2, false, false⟩),
    releasedAmount := 0, status := .Active }

/-- The milestone-escrow mutations, for the reachability invariant. -/
inductive EOp where
  | createM (genId : Nat → Nat → Nat → Nat → Nat → Nat)
      (caller now msgValue beneficiary arbiter token : Nat)
      (descriptions : List String) (amounts : List Nat)
  | complete (caller escrowId milestoneIndex : Nat)
  | release (escrowId milestoneIndex : Nat)

/-- One committed milestone-escrow call (a revert keeps the state). -/
def estep (st : State) : EOp → State
  | .createM genId caller now msgValue beneficiary arbiter token descriptions amounts =>
      match createMilestoneEscrow genId st caller now msgValue beneficiary arbiter token
          descriptions amounts with
      | .ok (st', _) => st'
      | .error _ => st
  | .complete caller escrowId milestoneIndex =>
      match completeMilestone st caller escrowId milestoneIndex with
      | .ok st' => st'
      | .error _ => st
  | .release escrowId milestoneIndex =>
      match releaseMilestone st escrowId milestoneIndex with
      | .ok (st', _) => st'
      | .error _ => st

/-- The sum of all milestone amounts of a milestone list. -/
def totalSum (l : List Milestone) : Nat :=
  (l.map (fun m => m.amount)).sum

/-- The sum of the amounts of the already-released milestones. -/
def releasedSum (l : List Milestone) : Nat :=
  ((l.filter (fun m => m.released)).map (fun m => m.amount)).sum

/-- Accounting invariant of one milestone escrow record:
`totalAmount` is the sum of all milestone amounts and
`releasedAmount` the sum of the released ones. -/
def MInv (e : MilestoneEscrow) : Prop :=
  e.totalAmount = totalSum e.milestones ∧
  e.releasedAmount = releasedSum e.milestones

end Escrow

namespace AgentWallet

/-- A sequence of committed `agentExecute` calls by one agent (a
reverted call keeps the state), returning the final state and the
total amount of the calls that succeeded. -/
def spendSeq (st : State) (agent : Nat) :
    List (Nat × Nat × Nat) → State × Nat
  | [] => (st, 0)
  | c :: rest =>
      match agentExecute st agent c.1 c.2.1 c.2.2 with
      | .ok (st', _) =>
          let (stEnd, s) := spendSeq st' agent rest
          (stEnd, c.2.2 + s)
      | .error _ =>
          let (stEnd, s) := spendSeq st agent rest
          (stEnd, s)

/-- The mutating entry points of `AgentWallet`, for persistence
statements over arbitrary call sequences. -/
inductive WOp where
  | grant (caller now agent maxPerTx dailyLimit durationSeconds : Nat)
  | revoke (caller agent : Nat)
  | addAllowed (caller agent recipient : Nat)
  | removeAllowed (caller agent recipient : Nat)
  | exec (caller now toAddr amount : Nat)

/-- One committed `AgentWallet` call (a revert keeps the state). -/
def wstep (st : State) : WOp → State
  | .grant caller now agent maxPerTx dailyLimit durationSeconds =>
      match grantPermission st caller now agent maxPerTx dailyLimit durationSeconds with
      | .ok st' => st'
      | .error _ => st
  | .revoke caller agent =>
      match revokePermission st caller agent with
      | .ok st' => st'
      | .error _ => st
  | .addAllowed caller agent recipient =>
      match addAllowedRecipient st caller agent recipient with
      | .ok st' => st'
      | .error _ => st
  | .removeAllowed caller agent recipient =>
      match removeAllowedRecipient st caller agent recipient with
      | .ok st' => st'
      | .error _ => st
  | .exec caller now toAddr amount =>
      match agentExecute st caller now toAddr amount with
      | .ok (st', _) => st'
      | .error _ => st

end AgentWallet

/-- Modelled from the spec: "caller ∈ {payer, payee, any agent with an
active SpendPermission covering this payee}" — the authorization set
the spec claims for `execute`.  An agent covers a payee when its
`AgentWallet` permission is active, unexpired at the call time, and
its allowlist (when enforced) lists the payee.  No such link between
`AgentPayGateway` and `AgentWallet` exists in the source; this
definition exists only to compare the spec's wording with the code. -/
def specExecuteAuthorized (w : AgentWallet.State) (now caller : Nat)
    (p : Gateway.PaymentRequest) : Prop :=
  caller = p.fromAddr ∨ caller = p.toAddr ∨
    ((w.permissions caller).active = true ∧
     ((w.permissions caller).expiry = 0 ∨ now < (w.permissions caller).expiry) ∧
     (w.hasAllowlist caller = true → w.allowedRecipients caller p.toAddr = true))

section SampleStates

/-- Identity stand-in for `keccak256` in concrete scenarios. -/
def hashId : Nat → Nat := fun p => p

/-- Payment-id generator for concrete scenarios: fresh id `100 + nonce`. -/
def genSeq : Nat → Nat → Nat → Nat → Nat → Nat := fun _ _ _ n _ => 100 + n

/-- A pending sample payment: payer 10, payee 11, native token,
amount 100, deadline 1000, no condition. -/
def payA : Gateway.PaymentRequest :=
  { id := 1, fromAddr := 10, toAddr := 11, token := 0, amount := 100,
    deadline := 1000, conditionHash := 0, status := .Pending }

/-- Gateway with `payA` stored at id 1; address 12 is an authorized
agent, fee 30 bp, fee recipient 9. -/
def gwA : Gateway.State :=
  { payments := fun w => if w = 1 then payA else .empty,
    userPayments := fun _ => [],
    authorizedAgents := fun a => a == 12,
    protocolFee := 30, feeRecipient := 9, nonce := 0 }

/-- Gateway with no stored payments; address 20 (the sample engine) is
an authorized agent. -/
def gw0 : Gateway.State :=
  { payments := fun _ => .empty,
    userPayments := fun _ => [],
    authorizedAgents := fun a => a == 20,
    protocolFee := 30, feeRecipient := 9, nonce := 0 }

/-- State `gwA` after payment 1 is executed. -/
def gwAx : Gateway.State := Gateway.setStatus gwA 1 .Executed

/-- State `gwA` after payment 1 is cancelled. -/
def gwAc : Gateway.State := Gateway.setStatus gwA 1 .Cancelled

/-- A native-token payment of 10000 created with `msg.value = 10050`
(the gateway keeps the 50 excess). -/
def c7create : Except String (Gateway.State × Nat × Nat) :=
  Gateway.createPayment genSeq gw0 10 50 10050 11 0 10000 1000 0

/-- What left the payer at creation in the `c7create` scenario. -/
def c7debited : Nat :=
  match c7create with
  | .ok (_, _, d) => d
  | .error _ => 0

/-- Total amount disbursed when the `c7create` payment is executed. -/
def c7disbursed : Nat :=
  match c7create with
  | .ok (st1, paymentId, _) =>
      match Gateway.executePayment hashId st1 10 60 paymentId 0 with
      | .ok (_, tr) => (tr.map Transfer.amount).sum
      | .error _ => 0
  | .error _ => 0

/-- A 3-leg multi-leg transaction whose middle leg has amount 0 (so
its `createPayment` reverts with "Invalid amount"); legs 1 and 3 are
valid ERC20 legs. -/
def mlTxC2 : Engine.MultiLegTx :=
  { id := 7,
    legs := [⟨10, 11, 1, 100, false⟩, ⟨10, 12, 1, 0, false⟩, ⟨10, 13, 1, 50, false⟩],
    createdAt := 0, status := .Pending }

/-- Engine (address 20) holding `mlTxC2` over the empty gateway. -/
def engC2 : Engine.State :=
  { selfAddr := 20, gw := gw0,
    batches := fun _ => .empty,
    batchPaymentStatus := fun _ _ => false,
    multiLegTxs := fun w => if w = 7 then mlTxC2 else .empty,
    nonce := 0 }

/-- A 2-leg multi-leg transaction whose legs are both valid. -/
def mlTxOk : Engine.MultiLegTx :=
  { id := 8,
    legs := [⟨10, 11, 1, 100, false⟩, ⟨10, 13, 1, 50, false⟩],
    createdAt := 0, status := .Pending }

/-- Engine (address 20) holding `mlTxOk` over the empty gateway. -/
def engOk : Engine.State :=
  { selfAddr := 20, gw := gw0,
    batches := fun _ => .empty,
    batchPaymentStatus := fun _ _ => false,
    multiLegTxs := fun w => if w = 8 then mlTxOk else .empty,
    nonce := 0 }

/-- The successful leg run of `engOk`'s transaction 8. -/
def c2okRun : Gateway.State × List Engine.Leg :=
  match Engine.runLegs hashId genSeq engOk.gw 20 50 (engOk.multiLegTxs 8).legs [1, 2] 0 with
  | .ok r => r
  | .error _ => (engOk.gw, [])

/-- Gateway for the batch scenario: payments 1 and 3 pending, payment
2 already cancelled; the engine (20) is an authorized agent. -/
def gwBatch : Gateway.State :=
  { payments := fun w =>
      if w = 1 then { payA with id := 1 }
      else if w = 2 then { payA with id := 2, status := .Cancelled }
      else if w = 3 then { payA with id := 3 }
      else .empty,
    userPayments := fun _ => [],
    authorizedAgents := fun a => a == 20,
    protocolFee := 30, feeRecipient := 9, nonce := 0 }

/-- Engine holding a pending batch [1, 2, 3] over `gwBatch`. -/
def engBatch : Engine.State :=
  { selfAddr := 20, gw := gwBatch,
    batches := fun w =>
      if w = 4 then ⟨4, [1, 2, 3], 0, 0, .Pending⟩ else .empty,
    batchPaymentStatus := fun _ _ => false,
    multiLegTxs := fun _ => .empty,
    nonce := 0 }

/-- An active permission: caps 5 per tx / 50 per day, no expiry. -/
def permB (spentToday : Nat) : AgentWallet.SpendPermission :=
  { active := true, maxPerTx := 5, dailyLimit := 50, spentToday := spentToday,
    lastResetTime := 0, totalSpent := spentToday, txCount := 0, expiry := 0 }

/-- Wallet owned by 1 whose agent 2 holds `permB spent`; no
allowlist; balance 1000. -/
def wSpend (spent : Nat) : AgentWallet.State :=
  { owner := 1,
    permissions := fun a => if a = 2 then permB spent else .empty,
    allowedRecipients := fun _ _ => false,
    hasAllowlist := fun _ => false,
    agents := [2], isAgent := fun a => a == 2, balance := 1000 }

/-- Wallet whose agent 2 is allowlist-enforced with exactly recipient
3 allowed. -/
def wListed : AgentWallet.State :=
  { owner := 1,
    permissions := fun a => if a = 2 then permB 0 else .empty,
    allowedRecipients := fun a r => a == 2 && r == 3,
    hasAllowlist := fun a => a == 2,
    agents := [2], isAgent := fun a => a == 2, balance := 1000 }

/-- The wallet `wSpend 0` right after its first allowlist entry
(`addAllowedRecipient(2, 3)` by the owner). -/
def wAfterAdd : AgentWallet.State :=
  match AgentWallet.addAllowedRecipient (wSpend 0) 1 2 3 with
  | .ok s => s
  | .error _ => wSpend 0

/-- Four sample milestones [500, 1500, 1500, 500], all completed,
none released. -/
def milesC9 : List Escrow.Milestone :=
  [⟨"a", 500, true, false⟩, ⟨"b", 1500, true, false⟩,
   ⟨"c", 1500, true, false⟩, ⟨"d", 500, true, false⟩]

/-- Escrow manager with no milestone escrows. -/
def es0 : Escrow.State :=
  { milestoneEscrows := fun _ => .empty,
    protocolFee := 50, feeRecipient := 9, nonce := 0 }

/-- Escrow manager holding one active milestone escrow (id 3,
depositor 10, beneficiary 11, arbiter 12, ERC20 token 1) with
`milesC9` and total 4000. -/
def esC9 : Escrow.State :=
  { milestoneEscrows := fun w =>
      if w = 3 then
        ⟨3, 10, 11, 12, 1, 4000, milesC9, 0, .Active⟩
      else .empty,
    protocolFee := 50, feeRecipient := 9, nonce := 0 }

/-- The escrow manager after creating a milestone escrow with
milestones [500, 1500, 1500, 500] (ERC20 token 1). -/
def esAfterCreate : Escrow.State :=
  match Escrow.createMilestoneEscrow genSeq es0 10 50 0 11 12 1
      ["a", "b", "c", "d"] [500, 1500, 1500, 500] with
  | .ok r => r.1
  | .error _ => es0

end SampleStates

namespace Gateway

theorem setStatus_payments_at (st : State) (paymentId : Nat) (s : PaymentStatus) :
    (setStatus st paymentId s).payments paymentId =
      { (st.payments paymentId) with status := s } := by
  simp [setStatus, updFn]

theorem executePayment_ok_iff (hash : Nat → Nat) (st : State)
    (caller now paymentId pf : Nat) (st' : State) (tr : List Transfer) :
    executePayment hash st caller now paymentId pf = .ok (st', tr) ↔
      ((st.payments paymentId).status = .Pending ∧
       now ≤ (st.payments paymentId).deadline ∧
       (caller = (st.payments paymentId).fromAddr ∨
        caller = (st.payments paymentId).toAddr ∨
        st.authorizedAgents caller = true) ∧
       ((st.payments paymentId).conditionHash ≠ 0 →
         hash pf = (st.payments paymentId).conditionHash) ∧
       st' = setStatus st paymentId .Executed ∧
       tr = disburse (setStatus st paymentId .Executed) (st.payments paymentId)) := by
  unfold executePayment
  dsimp only
  split_ifs with h1 h2 h3 h4
  all_goals try (simp only [false_iff]; rintro ⟨k1, k2, k3, k4, k5, k6⟩)
  · exact h1 k1
  · exact h4.2 (k4 h4.1)
  · constructor
    · intro h
      simp only [Except.ok.injEq, Prod.mk.injEq] at h
      refine ⟨not_not.mp h1, h2, h3, ?_, h.1.symm, h.2.symm⟩
      intro hne
      rcases not_and_or.mp h4 with hc | hc
      · exact absurd hne hc
      · exact not_not.mp hc
    · rintro ⟨-, -, -, -, rfl, rfl⟩
      rfl
  · exact h3 k3
  · exact h2 k2

theorem executePayment_invalid_status (hash : Nat → Nat) (st : State)
    (caller now paymentId pf : Nat)
    (h : (st.payments paymentId).status ≠ .Pending) :
    executePayment hash st caller now paymentId pf = .error "Invalid status" := by
  unfold executePayment
  dsimp only
  rw [if_pos h]

theorem executePayment_not_authorized (hash : Nat → Nat) (st : State)
    (caller now paymentId pf : Nat)
    (hs : (st.payments paymentId).status = .Pending)
    (hd : now ≤ (st.payments paymentId).deadline)
    (ha : ¬ (caller = (st.payments paymentId).fromAddr ∨
             caller = (st.payments paymentId).toAddr ∨
             st.authorizedAgents caller = true)) :
    executePayment hash st caller now paymentId pf = .error "Not authorized" := by
  unfold executePayment
  dsimp only
  rw [if_neg (by simp [hs]), if_neg (by simpa using hd), if_pos ha]

theorem execAttempt_fst_of_fail (hash : Nat → Nat) (st : State) (paymentId : Nat)
    (c : Nat × Nat × Nat)
    (h : ∀ st' tr, executePayment hash st c.1 c.2.1 paymentId c.2.2 ≠ .ok (st', tr)) :
    execAttempt hash st paymentId c = (st, false) := by
  unfold execAttempt
  cases hx : executePayment hash st c.1 c.2.1 paymentId c.2.2 with
  | ok r => exact absurd hx (by rcases r with ⟨a, b⟩; exact h a b)
  | error e => rfl

theorem execSeq_count_zero (hash : Nat → Nat) (st : State) (paymentId : Nat)
    (calls : List (Nat × Nat × Nat))
    (h : (st.payments paymentId).status ≠ .Pending) :
    (execSeq hash st paymentId calls).2 = 0 := by
  induction calls generalizing st with
  | nil => rfl
  | cons c rest ih =>
      have hfail : execAttempt hash st paymentId c = (st, false) := by
        apply execAttempt_fst_of_fail
        intro st' tr hok
        exact h ((executePayment_ok_iff hash st c.1 c.2.1 paymentId c.2.2 st' tr).mp hok).1
      simp only [execSeq, hfail]
      simpa using ih st h

theorem execSeq_count_le_one (hash : Nat → Nat) (st : State) (paymentId : Nat)
    (calls : List (Nat × Nat × Nat)) :
    (execSeq hash st paymentId calls).2 ≤ 1 := by
  induction calls generalizing st with
  | nil => simp [execSeq]
  | cons c rest ih =>
      rcases hx : executePayment hash st c.1 c.2.1 paymentId c.2.2 with e | ⟨st', tr⟩
      · have hfail : execAttempt hash st paymentId c = (st, false) := by
          unfold execAttempt
          rw [hx]
        simp only [execSeq, hfail]
        simpa using ih st
      · have hok : execAttempt hash st paymentId c = (st', true) := by
          unfold execAttempt
          rw [hx]
        have hstatus : (st'.payments paymentId).status = .Executed := by
          have := (executePayment_ok_iff hash st c.1 c.2.1 paymentId c.2.2 st' tr).mp hx
          rw [this.2.2.2.2.1, setStatus_payments_at]
        rcases hseq : execSeq hash st' paymentId rest with ⟨stE, n⟩
        have hn : n = 0 := by
          have hz := execSeq_count_zero hash st' paymentId rest (by simp [hstatus])
          rw [hseq] at hz
          exact hz
        simp [execSeq, hok, hseq, hn]

theorem feeOf_setStatus (st : State) (paymentId : Nat) (s : PaymentStatus)
    (p : PaymentRequest) : feeOf (setStatus st paymentId s) p = feeOf st p := rfl

theorem feeOf_le_amount (st : State) (p : PaymentRequest)
    (h : st.protocolFee ≤ 10000) : feeOf st p ≤ p.amount := by
  unfold feeOf
  calc p.amount * st.protocolFee / 10000
      ≤ p.amount * 10000 / 10000 :=
        Nat.div_le_div_right (Nat.mul_le_mul_left _ h)
    _ = p.amount := Nat.mul_div_cancel _ (by norm_num)

theorem cancelPayment_ok_iff (st : State) (caller paymentId : Nat)
    (st' : State) (tr : List Transfer) :
    cancelPayment st caller paymentId = .ok (st', tr) ↔
      ((st.payments paymentId).status = .Pending ∧
       caller = (st.payments paymentId).fromAddr ∧
       st' = setStatus st paymentId .Cancelled ∧
       tr = [⟨(st.payments paymentId).token, (st.payments paymentId).fromAddr,
             (st.payments paymentId).amount⟩]) := by
  unfold cancelPayment
  dsimp only
  split_ifs with h1 h2
  all_goals try (simp only [false_iff]; rintro ⟨k1, k2, k3, k4⟩)
  · exact h1 k1
  · exact h2 k2
  · constructor
    · intro h
      simp only [Except.ok.injEq, Prod.mk.injEq] at h
      exact ⟨not_not.mp h1, not_not.mp h2, h.1.symm, h.2.symm⟩
    · rintro ⟨-, -, rfl, rfl⟩
      rfl

theorem createPayment_ok_elim (genId : Nat → Nat → Nat → Nat → Nat → Nat)
    (st : State) (caller now msgValue toAddr token amount deadline condHash : Nat)
    (st' : State) (paymentId debited : Nat)
    (h : createPayment genId st caller now msgValue toAddr token amount deadline condHash =
      .ok (st', paymentId, debited)) :
    (st'.payments paymentId).amount = amount ∧
    (st'.payments paymentId).status = .Pending ∧
    (token ≠ 0 → debited = amount) ∧
    (token = 0 → debited = msgValue ∧ amount ≤ msgValue) := by
  unfold createPayment at h
  dsimp only at h
  by_cases h1 : toAddr = 0
  · rw [if_pos h1] at h; simp at h
  rw [if_neg h1] at h
  by_cases h2 : ¬ amount > 0
  · rw [if_pos h2] at h; simp at h
  rw [if_neg h2] at h
  by_cases h3 : ¬ deadline > now
  · rw [if_pos h3] at h; simp at h
  rw [if_neg h3] at h
  by_cases h4 : token = 0 ∧ ¬ msgValue ≥ amount
  · rw [if_pos h4] at h; simp at h
  rw [if_neg h4] at h
  simp only [Except.ok.injEq, Prod.mk.injEq] at h
  obtain ⟨hst, hpid, hdeb⟩ := h
  subst hpid
  refine ⟨?_, ?_, ?_, ?_⟩
  · rw [← hst]; simp [updFn]
  · rw [← hst]; simp [updFn]
  · intro htok
    rw [← hdeb, if_neg htok]
  · intro htok
    rw [not_and_or] at h4
    rcases h4 with hc | hc
    · exact absurd htok hc
    · exact ⟨by rw [← hdeb, if_pos htok], not_not.mp hc⟩

end Gateway

/-- Claim C1: for every payment, `executePayment` succeeds at most once
over any sequence of calls; on the one success the status is written to
Executed first and the funds are disbursed against that already-updated
state, and a second `executePayment` on the same payment fails with
"Invalid status". -/
theorem C1_execute_at_most_once (hash : Nat → Nat) :
    (∀ st caller now paymentId pf st' tr,
       Gateway.executePayment hash st caller now paymentId pf = .ok (st', tr) →
         st' = Gateway.setStatus st paymentId .Executed ∧
         (st'.payments paymentId).status = .Executed ∧
         tr = Gateway.disburse st' (st.payments paymentId) ∧
         ∀ caller2 now2 pf2,
           Gateway.executePayment hash st' caller2 now2 paymentId pf2 =
             .error "Invalid status") ∧
    (∀ st paymentId calls, (Gateway.execSeq hash st paymentId calls).2 ≤ 1) := by
  constructor
  · intro st caller now paymentId pf st' tr hok
    have h := (Gateway.executePayment_ok_iff hash st caller now paymentId pf st' tr).mp hok
    have hstat : (st'.payments paymentId).status = .Executed := by
      rw [h.2.2.2.2.1, Gateway.setStatus_payments_at]
    refine ⟨h.2.2.2.2.1, hstat, ?_, ?_⟩
    · rw [h.2.2.2.2.2, h.2.2.2.2.1]
    · intro caller2 now2 pf2
      exact Gateway.executePayment_invalid_status hash st' caller2 now2 paymentId pf2
        (by simp [hstat])
  · intro st paymentId calls
    exact Gateway.execSeq_count_le_one hash st paymentId calls

/-- Witness for C1 at a concrete pending payment. -/
theorem C1_execute_at_most_once_witness :
    ((gwAx.payments 1).status = Gateway.PaymentStatus.Executed ∧
     (∀ caller2 now2 pf2,
        Gateway.executePayment hashId gwAx caller2 now2 1 pf2 = .error "Invalid status")) ∧
    (Gateway.execSeq hashId gwA 1 [(10, 50, 0), (11, 60, 0), (12, 70, 0)]).2 ≤ 1 := by
  have h := (C1_execute_at_most_once hashId).1 gwA 10 50 1 0 gwAx
      (Gateway.disburse gwAx payA) rfl
  exact ⟨⟨h.2.1, h.2.2.2⟩, (C1_execute_at_most_once hashId).2 gwA 1 _⟩

/-- Claim C3 (amended): `cancelPayment` succeeds exactly when the
caller is the payment's payer and the status is Pending — the source
checks no deadline, so cancellation also succeeds after the deadline —
and on success refunds the full amount to the payer and transitions
the status to Cancelled. -/
theorem C3_cancel_conditions (st : Gateway.State) (caller paymentId : Nat)
    (st' : Gateway.State) (tr : List Transfer) :
    Gateway.cancelPayment st caller paymentId = .ok (st', tr) ↔
      ((st.payments paymentId).status = .Pending ∧
       caller = (st.payments paymentId).fromAddr ∧
       st' = Gateway.setStatus st paymentId .Cancelled ∧
       tr = [⟨(st.payments paymentId).token, (st.payments paymentId).fromAddr,
             (st.payments paymentId).amount⟩]) :=
  Gateway.cancelPayment_ok_iff st caller paymentId st' tr

/-- Counterexample to C3 as stated: payment 1 of `gwA` has deadline
1000, yet at current time 2000 (strictly after the deadline) the
payer's `cancelPayment` still succeeds — the code never checks the
deadline. -/
theorem C3_cancel_after_deadline :
    Gateway.cancelPayment gwA 10 1 = .ok (gwAc, [⟨0, 10, 100⟩]) ∧
    (gwA.payments 1).deadline < 2000 := ⟨rfl, by decide⟩

/-- Witness for C3 at a concrete pending payment. -/
theorem C3_cancel_conditions_witness :
    Gateway.cancelPayment gwA 10 1 = .ok (gwAc, [⟨0, 10, 100⟩]) :=
  (C3_cancel_conditions gwA 10 1 gwAc [⟨0, 10, 100⟩]).mpr
    ⟨by decide, by decide, rfl, by decide⟩

/-- Claim C4 (amended): for a pending, unexpired payment,
`executePayment` succeeds only when the caller is the payer, the
payee, or an address flagged in the gateway's own `authorizedAgents`
mapping (a flat owner-set flag, not an `AgentWallet` SpendPermission);
any other caller is rejected with "Not authorized", i.e. the call
reverts with no state change. -/
theorem C4_execute_authorization (hash : Nat → Nat) (st : Gateway.State)
    (caller now paymentId pf : Nat)
    (hs : (st.payments paymentId).status = .Pending)
    (hd : now ≤ (st.payments paymentId).deadline) :
    (∀ st' tr, Gateway.executePayment hash st caller now paymentId pf = .ok (st', tr) →
       caller = (st.payments paymentId).fromAddr ∨
       caller = (st.payments paymentId).toAddr ∨
       st.authorizedAgents caller = true) ∧
    (¬ (caller = (st.payments paymentId).fromAddr ∨
        caller = (st.payments paymentId).toAddr ∨
        st.authorizedAgents caller = true) →
       Gateway.executePayment hash st caller now paymentId pf = .error "Not authorized") := by
  constructor
  · intro st' tr h
    exact ((Gateway.executePayment_ok_iff hash st caller now paymentId pf st' tr).mp h).2.2.1
  · intro ha
    exact Gateway.executePayment_not_authorized hash st caller now paymentId pf hs hd ha

/-- Counterexample to C4 as stated: address 12 is neither payer (10)
nor payee (11) of payment 1 and holds no active `AgentWallet`
SpendPermission at all, yet its `executePayment` succeeds because the
gateway only consults its flat `authorizedAgents` flag. -/
theorem C4_agent_without_permission_executes :
    Gateway.executePayment hashId gwA 12 50 1 0 =
      .ok (gwAx, Gateway.disburse gwAx payA) ∧
    ¬ specExecuteAuthorized (wSpend 0) 50 12 payA := by
  constructor
  · rfl
  · unfold specExecuteAuthorized
    decide

/-- Witness for C4: caller 13 is rejected with "Not authorized". -/
theorem C4_execute_authorization_witness :
    Gateway.executePayment hashId gwA 13 50 1 0 = .error "Not authorized" :=
  (C4_execute_authorization hashId gwA 13 50 1 0 (by decide) (by decide)).2 (by decide)

/-- Claim C7 (amended): on execution, fee = ⌊amount·protocolFee/10000⌋
and netAmount = amount − fee, so netAmount + fee = amount exactly and
the disbursed total equals the recorded amount; at creation exactly
`amount` leaves the payer on the ERC20 path, while on the native path
`msg.value ≥ amount` leaves the payer and any excess stays with the
gateway. -/
theorem C7_conservation (hash : Nat → Nat) (genId : Nat → Nat → Nat → Nat → Nat → Nat) :
    (∀ st caller now msgValue toAddr token amount deadline condHash st' paymentId debited,
       Gateway.createPayment genId st caller now msgValue toAddr token amount deadline
           condHash = .ok (st', paymentId, debited) →
         (st'.payments paymentId).amount = amount ∧
         (token ≠ 0 → debited = amount) ∧
         (token = 0 → debited = msgValue ∧ amount ≤ msgValue)) ∧
    (∀ st caller now paymentId pf st' tr,
       st.protocolFee ≤ 10000 →
       Gateway.executePayment hash st caller now paymentId pf = .ok (st', tr) →
         ((st.payments paymentId).amount - Gateway.feeOf st (st.payments paymentId)) +
             Gateway.feeOf st (st.payments paymentId) = (st.payments paymentId).amount ∧
         (tr.map Transfer.amount).sum = (st.payments paymentId).amount) := by
  constructor
  · intro st caller now msgValue toAddr token amount deadline condHash st' paymentId debited h
    have hc := Gateway.createPayment_ok_elim genId st caller now msgValue toAddr token
      amount deadline condHash st' paymentId debited h
    exact ⟨hc.1, hc.2.2.1, hc.2.2.2⟩
  · intro st caller now paymentId pf st' tr hfee h
    have hx := (Gateway.executePayment_ok_iff hash st caller now paymentId pf st' tr).mp h
    have hle := Gateway.feeOf_le_amount st (st.payments paymentId) hfee
    constructor
    · omega
    · rw [hx.2.2.2.2.2]
      unfold Gateway.disburse
      rw [Gateway.feeOf_setStatus]
      dsimp only
      by_cases hf : Gateway.feeOf st (st.payments paymentId) > 0
      · rw [if_pos hf]
        simp only [List.map_cons, List.map_nil, List.sum_cons, List.sum_nil]
        omega
      · rw [if_neg hf]
        simp only [List.map_cons, List.map_nil, List.sum_cons, List.sum_nil]
        omega

/-- Counterexample to C7 as stated: a native payment of 10000 created
with msg.value = 10050 debits the payer 10050 at creation, yet
execution disburses exactly 10000 (9970 net + 30 fee) — the 50 excess
is retained by the gateway, so netAmount + fee does not equal what
left the payer. -/
theorem C7_native_overpayment_leaks :
    c7disbursed = 10000 ∧ c7debited = 10050 ∧ c7disbursed ≠ c7debited := by decide

/-- Witness for C7 on a concrete ERC20 creation and a concrete
execution with 0.3 percent fee. -/
theorem C7_conservation_witness :
    ((100 : Nat) ≠ 0 → (500 : Nat) = 500) ∧
    ((gwA.payments 1).amount - Gateway.feeOf gwA (gwA.payments 1)) +
        Gateway.feeOf gwA (gwA.payments 1) = (gwA.payments 1).amount ∧
    ((Gateway.disburse gwAx payA).map Transfer.amount).sum = (gwA.payments 1).amount := by
  have hc := (C7_conservation hashId genSeq).1 gw0 10 50 0 11 100 500 1000 0 _ _ _ rfl
  have hx := (C7_conservation hashId genSeq).2 gwA 10 50 1 0 gwAx
      (Gateway.disburse gwAx payA) (by decide) rfl
  exact ⟨fun h => hc.2.1 h, hx.1, hx.2⟩

namespace AgentWallet

theorem resetIfDue_maxPerTx (p : SpendPermission) (n : Nat) :
    (resetIfDue p n).maxPerTx = p.maxPerTx := by
  unfold resetIfDue; split_ifs <;> rfl

theorem resetIfDue_dailyLimit (p : SpendPermission) (n : Nat) :
    (resetIfDue p n).dailyLimit = p.dailyLimit := by
  unfold resetIfDue; split_ifs <;> rfl

theorem resetIfDue_spentToday (p : SpendPermission) (n : Nat) :
    (resetIfDue p n).spentToday =
      if n ≥ p.lastResetTime + oneDay then 0 else p.spentToday := by
  unfold resetIfDue; split_ifs <;> rfl

theorem resetIfDue_of_lt (p : SpendPermission) (n : Nat)
    (h : n < p.lastResetTime + oneDay) : resetIfDue p n = p := by
  unfold resetIfDue
  rw [if_neg (by omega)]

theorem agentExecute_ok_iff (st : State) (caller now toAddr amount : Nat)
    (st' : State) (tr : Transfer) :
    agentExecute st caller now toAddr amount = .ok (st', tr) ↔
      ((st.permissions caller).active = true ∧
       ((st.permissions caller).expiry = 0 ∨ now < (st.permissions caller).expiry) ∧
       amount ≤ (resetIfDue (st.permissions caller) now).maxPerTx ∧
       (resetIfDue (st.permissions caller) now).spentToday + amount ≤
         (resetIfDue (st.permissions caller) now).dailyLimit ∧
       amount ≤ st.balance ∧
       (st.hasAllowlist caller = true → st.allowedRecipients caller toAddr = true) ∧
       st' = afterSpend st caller now amount ∧
       tr = ⟨0, toAddr, amount⟩) := by
  unfold agentExecute afterSpend
  dsimp only
  split_ifs with h1 h2 h3 h4 h5 h6
  all_goals try (simp only [false_iff]; rintro ⟨k1, k2, k3, k4, k5, k6, k7, k8⟩)
  all_goals try first
    | exact h6.2 (k6 h6.1)
    | exact h5 k5
    | exact h4 k4
    | exact h3 k3
    | exact h2 k2
    | exact h1 (by simp [k1])
  constructor
  · intro h
    simp only [Except.ok.injEq, Prod.mk.injEq] at h
    refine ⟨by simpa using h1, h2, h3, h4, h5, ?_,
      h.1.symm, h.2.symm⟩
    intro hal
    by_contra hno
    exact h6 ⟨hal, by simpa using hno⟩
  · rintro ⟨-, -, -, -, -, -, rfl, rfl⟩
    rfl

end AgentWallet

namespace AgentWallet

theorem agentExecute_daily_limit_error (st : State) (caller now toAddr amount : Nat)
    (h1 : (st.permissions caller).active = true)
    (h2 : (st.permissions caller).expiry = 0 ∨ now < (st.permissions caller).expiry)
    (h3 : amount ≤ (resetIfDue (st.permissions caller) now).maxPerTx)
    (h4 : (resetIfDue (st.permissions caller) now).spentToday + amount >
      (resetIfDue (st.permissions caller) now).dailyLimit) :
    agentExecute st caller now toAddr amount = .error "Exceeds daily limit" := by
  unfold agentExecute
  dsimp only
  rw [if_neg (by simp [h1]), if_neg (by simp only [not_not]; exact h2), if_neg (by simpa using h3),
    if_pos (by omega)]

theorem agentExecute_not_allowed_error (st : State) (caller now toAddr amount : Nat)
    (h1 : (st.permissions caller).active = true)
    (h2 : (st.permissions caller).expiry = 0 ∨ now < (st.permissions caller).expiry)
    (h3 : amount ≤ (resetIfDue (st.permissions caller) now).maxPerTx)
    (h4 : (resetIfDue (st.permissions caller) now).spentToday + amount ≤
      (resetIfDue (st.permissions caller) now).dailyLimit)
    (h5 : amount ≤ st.balance)
    (h6 : st.hasAllowlist caller = true)
    (h7 : st.allowedRecipients caller toAddr = false) :
    agentExecute st caller now toAddr amount = .error "Recipient not allowed" := by
  unfold agentExecute
  dsimp only
  rw [if_neg (by simp [h1]), if_neg (by simp only [not_not]; exact h2), if_neg (by simpa using h3),
    if_neg (by omega), if_neg (by simpa using h5), if_pos (by simp [h6, h7])]

theorem afterSpend_permissions_caller (st : State) (caller now amount : Nat) :
    (afterSpend st caller now amount).permissions caller =
      { resetIfDue (st.permissions caller) now with
        spentToday := (resetIfDue (st.permissions caller) now).spentToday + amount,
        totalSpent := (resetIfDue (st.permissions caller) now).totalSpent + amount,
        txCount := (resetIfDue (st.permissions caller) now).txCount + 1 } := by
  simp [afterSpend, updFn]

theorem spendSeq_daily_bound (agent : Nat) (calls : List (Nat × Nat × Nat)) :
    ∀ st : State,
      (∀ c ∈ calls, c.1 < (st.permissions agent).lastResetTime + oneDay) →
      (st.permissions agent).spentToday ≤ (st.permissions agent).dailyLimit →
      (spendSeq st agent calls).2 + (st.permissions agent).spentToday ≤
        (st.permissions agent).dailyLimit := by
  induction calls with
  | nil =>
      intro st _ h
      simpa [spendSeq] using h
  | cons c rest ih =>
      intro st hc hsp
      rcases hx : agentExecute st agent c.1 c.2.1 c.2.2 with e | ⟨st', tr⟩
      · rcases hseq : spendSeq st agent rest with ⟨stE, s⟩
        have hrec := ih st (fun d hd => hc d (List.mem_cons_of_mem _ hd)) hsp
        rw [hseq] at hrec
        simp only [spendSeq, hx, hseq]
        simpa using hrec
      · have hchar := (agentExecute_ok_iff st agent c.1 c.2.1 c.2.2 st' tr).mp hx
        have hnr : resetIfDue (st.permissions agent) c.1 = st.permissions agent :=
          resetIfDue_of_lt _ _ (hc c (List.mem_cons_self c rest))
        have hperm : st'.permissions agent =
            { st.permissions agent with
              spentToday := (st.permissions agent).spentToday + c.2.2,
              totalSpent := (st.permissions agent).totalSpent + c.2.2,
              txCount := (st.permissions agent).txCount + 1 } := by
          rw [hchar.2.2.2.2.2.2.1, afterSpend_permissions_caller, hnr]
        have hbound : (st.permissions agent).spentToday + c.2.2 ≤
            (st.permissions agent).dailyLimit := by
          have := hchar.2.2.2.1
          rw [hnr] at this
          exact this
        have hrest : ∀ d ∈ rest, d.1 < (st'.permissions agent).lastResetTime + oneDay := by
          intro d hd
          rw [hperm]
          exact hc d (List.mem_cons_of_mem _ hd)
        have hsp' : (st'.permissions agent).spentToday ≤ (st'.permissions agent).dailyLimit := by
          rw [hperm]
          exact hbound
        have hrec := ih st' hrest hsp'
        rcases hseq : spendSeq st' agent rest with ⟨stE, s⟩
        rw [hseq] at hrec
        rw [hperm] at hrec
        simp only [spendSeq, hx, hseq]
        simp only at hrec
        omega

end AgentWallet

namespace AgentWallet

theorem agentExecute_isOk_indep (st : State) (agent now r1 r2 amt : Nat)
    (h : st.hasAllowlist agent = false) :
    (agentExecute st agent now r1 amt).isOk = (agentExecute st agent now r2 amt).isOk := by
  unfold agentExecute
  dsimp only
  split_ifs with h1 h2 h3 h4 h5 h6 h7 <;> simp_all [Except.isOk] <;> rfl

theorem agentExecute_no_allowlist_error (st : State) (agent now r amt : Nat)
    (h : st.hasAllowlist agent = false) :
    agentExecute st agent now r amt ≠ .error "Recipient not allowed" := by
  unfold agentExecute
  dsimp only
  split_ifs with h1 h2 h3 h4 h5 h6 <;> simp_all

theorem addAllowedRecipient_sets_flag (st : State) (caller agent recipient : Nat)
    (st' : State)
    (h : addAllowedRecipient st caller agent recipient = .ok st') :
    st'.hasAllowlist agent = true := by
  unfold addAllowedRecipient at h
  split_ifs at h with h1 h2
  all_goals try exact Except.noConfusion h
  simp only [Except.ok.injEq] at h
  rw [← h]
  simp [updFn]

theorem wstep_preserves_hasAllowlist (st : State) (op : WOp) (agent : Nat)
    (h : st.hasAllowlist agent = true) : (wstep st op).hasAllowlist agent = true := by
  cases op with
  | grant caller now a mpt dl dur =>
      unfold wstep grantPermission
      dsimp only
      split_ifs <;> simp_all
  | revoke caller a =>
      unfold wstep revokePermission
      dsimp only
      split_ifs <;> simp_all
  | addAllowed caller a r =>
      unfold wstep addAllowedRecipient
      dsimp only
      split_ifs <;> simp_all [updFn] <;> split_ifs <;> simp_all
  | removeAllowed caller a r =>
      unfold wstep removeAllowedRecipient
      dsimp only
      split_ifs <;> simp_all
  | exec caller now toAddr amount =>
      unfold wstep
      rcases hx : agentExecute st caller now toAddr amount with e | ⟨st', tr⟩
      · simp only [hx]
        exact h
      · simp only [hx]
        have hchar := (agentExecute_ok_iff st caller now toAddr amount st' tr).mp hx
        rw [hchar.2.2.2.2.2.2.1]
        simpa [afterSpend] using h

end AgentWallet

open AgentWallet in
/-- Claim C5: a single agent spend succeeds only if the permission is
active and unexpired, the amount is within `maxPerTx`, and the
reset-adjusted `spentToday` plus the amount stays within `dailyLimit`;
the total successfully spent inside one 24-hour reset window never
exceeds `dailyLimit`; an over-limit spend fails with "Exceeds daily
limit"; and once 24 hours have passed the reset zeroes `spentToday`,
so the same spend succeeds and is recorded as the day's first. -/
theorem C5_daily_limit_enforcement :
    (∀ (st : State) (caller now toAddr amount : Nat) (st' : State) (tr : Transfer),
       agentExecute st caller now toAddr amount = .ok (st', tr) →
         (st.permissions caller).active = true ∧
         ((st.permissions caller).expiry = 0 ∨ now < (st.permissions caller).expiry) ∧
         amount ≤ (st.permissions caller).maxPerTx ∧
         (if now ≥ (st.permissions caller).lastResetTime + oneDay then 0
          else (st.permissions caller).spentToday) + amount ≤
           (st.permissions caller).dailyLimit) ∧
    (∀ (agent : Nat) (calls : List (Nat × Nat × Nat)) (st : State),
       (∀ c ∈ calls, c.1 < (st.permissions agent).lastResetTime + oneDay) →
       (st.permissions agent).spentToday ≤ (st.permissions agent).dailyLimit →
       (spendSeq st agent calls).2 + (st.permissions agent).spentToday ≤
         (st.permissions agent).dailyLimit) ∧
    (∀ (st : State) (caller now toAddr amount : Nat),
       (st.permissions caller).active = true →
       ((st.permissions caller).expiry = 0 ∨ now < (st.permissions caller).expiry) →
       amount ≤ (st.permissions caller).maxPerTx →
       (if now ≥ (st.permissions caller).lastResetTime + oneDay then 0
        else (st.permissions caller).spentToday) + amount >
         (st.permissions caller).dailyLimit →
       agentExecute st caller now toAddr amount = .error "Exceeds daily limit") ∧
    (∀ (st : State) (caller now toAddr amount : Nat),
       now ≥ (st.permissions caller).lastResetTime + oneDay →
       (st.permissions caller).active = true →
       ((st.permissions caller).expiry = 0 ∨ now < (st.permissions caller).expiry) →
       amount ≤ (st.permissions caller).maxPerTx →
       amount ≤ (st.permissions caller).dailyLimit →
       amount ≤ st.balance →
       (st.hasAllowlist caller = true → st.allowedRecipients caller toAddr = true) →
       agentExecute st caller now toAddr amount =
         .ok (afterSpend st caller now amount, ⟨0, toAddr, amount⟩) ∧
       ((afterSpend st caller now amount).permissions caller).spentToday = amount ∧
       ((afterSpend st caller now amount).permissions caller).lastResetTime = now) := by
  refine ⟨?_, ?_, ?_, ?_⟩
  · intro st caller now toAddr amount st' tr h
    have hc := (agentExecute_ok_iff st caller now toAddr amount st' tr).mp h
    refine ⟨hc.1, hc.2.1, ?_, ?_⟩
    · have := hc.2.2.1
      rwa [resetIfDue_maxPerTx] at this
    · have := hc.2.2.2.1
      rwa [resetIfDue_spentToday, resetIfDue_dailyLimit] at this
  · intro agent calls st h1 h2
    exact spendSeq_daily_bound agent calls st h1 h2
  · intro st caller now toAddr amount h1 h2 h3 h4
    refine agentExecute_daily_limit_error st caller now toAddr amount h1 h2 ?_ ?_
    · rwa [resetIfDue_maxPerTx]
    · rwa [resetIfDue_spentToday, resetIfDue_dailyLimit]
  · intro st caller now toAddr amount hreset h1 h2 h3 h4 h5 h6
    have hrs : (resetIfDue (st.permissions caller) now).spentToday = 0 := by
      rw [resetIfDue_spentToday, if_pos hreset]
    have hrl : (resetIfDue (st.permissions caller) now).lastResetTime = now := by
      unfold resetIfDue
      rw [if_pos hreset]
    refine ⟨?_, ?_, ?_⟩
    · exact (agentExecute_ok_iff st caller now toAddr amount
        (afterSpend st caller now amount) ⟨0, toAddr, amount⟩).mpr
        ⟨h1, h2, by rwa [resetIfDue_maxPerTx], by rw [hrs, resetIfDue_dailyLimit]; omega,
         h5, h6, rfl, rfl⟩
    · rw [afterSpend_permissions_caller]
      simp [hrs]
    · rw [afterSpend_permissions_caller]
      simpa using hrl

/-- Witness for C5: daily limit 50, per-tx cap 5; ten spends of 5
within the first day total 50 and stay within the limit, the eleventh
(at `spentToday = 50`) fails with "Exceeds daily limit", and the same
spend succeeds after a 24h advance with `spentToday` reset to the
single new spend. -/
theorem C5_daily_limit_enforcement_witness :
    (AgentWallet.spendSeq (wSpend 0) 2 (List.replicate 10 (10, 3, 5))).2 +
        ((wSpend 0).permissions 2).spentToday ≤ ((wSpend 0).permissions 2).dailyLimit ∧
    (AgentWallet.spendSeq (wSpend 0) 2 (List.replicate 10 (10, 3, 5))).2 = 50 ∧
    AgentWallet.agentExecute (wSpend 50) 2 10 3 5 = .error "Exceeds daily limit" ∧
    AgentWallet.agentExecute (wSpend 50) 2 90000 3 5 =
      .ok (AgentWallet.afterSpend (wSpend 50) 2 90000 5, ⟨0, 3, 5⟩) ∧
    ((AgentWallet.afterSpend (wSpend 50) 2 90000 5).permissions 2).spentToday = 5 := by
  refine ⟨?_, ?_, ?_, ?_, ?_⟩
  · exact C5_daily_limit_enforcement.2.1 2 (List.replicate 10 (10, 3, 5)) (wSpend 0)
      (by decide) (by decide)
  · decide
  · exact C5_daily_limit_enforcement.2.2.1 (wSpend 50) 2 10 3 5 (by decide) (by decide)
      (by decide) (by decide)
  · exact (C5_daily_limit_enforcement.2.2.2 (wSpend 50) 2 90000 3 5 (by decide) (by decide)
      (by decide) (by decide) (by decide) (by decide) (by decide)).1
  · exact (C5_daily_limit_enforcement.2.2.2 (wSpend 50) 2 90000 3 5 (by decide) (by decide)
      (by decide) (by decide) (by decide) (by decide) (by decide)).2.1

open AgentWallet in
/-- Claim C8: an agent with no allowlist entries may spend to any
recipient — the recipient never changes the outcome and the
"Recipient not allowed" rejection cannot occur; the first
`addAllowedRecipient` switches the agent into enforced mode; no later
wallet call (removals included) ever clears the flag; and an enforced
agent's spend to a recipient not currently allowed never succeeds,
failing with exactly "Recipient not allowed" once the limit and
balance checks pass. -/
theorem C8_allowlist_permanence :
    (∀ (st : State) (agent now r1 r2 amt : Nat), st.hasAllowlist agent = false →
       (agentExecute st agent now r1 amt).isOk = (agentExecute st agent now r2 amt).isOk ∧
       agentExecute st agent now r1 amt ≠ .error "Recipient not allowed") ∧
    (∀ (st : State) (caller agent recipient : Nat) (st' : State),
       addAllowedRecipient st caller agent recipient = .ok st' →
       st'.hasAllowlist agent = true) ∧
    (∀ (st : State) (agent : Nat) (ops : List WOp), st.hasAllowlist agent = true →
       (ops.foldl wstep st).hasAllowlist agent = true) ∧
    (∀ (st : State) (agent now r amt : Nat),
       st.hasAllowlist agent = true → st.allowedRecipients agent r = false →
       (∀ st' tr, agentExecute st agent now r amt ≠ .ok (st', tr)) ∧
       ((st.permissions agent).active = true →
        ((st.permissions agent).expiry = 0 ∨ now < (st.permissions agent).expiry) →
        amt ≤ (st.permissions agent).maxPerTx →
        (if now ≥ (st.permissions agent).lastResetTime + oneDay then 0
         else (st.permissions agent).spentToday) + amt ≤
          (st.permissions agent).dailyLimit →
        amt ≤ st.balance →
        agentExecute st agent now r amt = .error "Recipient not allowed")) := by
  refine ⟨?_, ?_, ?_, ?_⟩
  · intro st agent now r1 r2 amt h
    exact ⟨agentExecute_isOk_indep st agent now r1 r2 amt h,
      agentExecute_no_allowlist_error st agent now r1 amt h⟩
  · intro st caller agent recipient st' h
    exact addAllowedRecipient_sets_flag st caller agent recipient st' h
  · intro st agent ops
    induction ops generalizing st with
    | nil => intro h; simpa using h
    | cons op rest ih =>
        intro h
        exact ih (wstep st op) (wstep_preserves_hasAllowlist st op agent h)
  · intro st agent now r amt hal hnr
    constructor
    · intro st' tr hok
      have hc := (agentExecute_ok_iff st agent now r amt st' tr).mp hok
      have := hc.2.2.2.2.2.1 hal
      rw [hnr] at this
      cases this
    · intro h1 h2 h3 h4 h5
      refine agentExecute_not_allowed_error st agent now r amt h1 h2 ?_ ?_ h5 hal hnr
      · rwa [resetIfDue_maxPerTx]
      · rwa [resetIfDue_spentToday, resetIfDue_dailyLimit]

/-- Witness for C8: agent 2 of `wSpend 0` has no allowlist and spends
to any recipient; `addAllowedRecipient(2, 3)` flips it into enforced
mode; removing the entry again does not clear the flag; and spending
to the non-listed recipient 4 fails with "Recipient not allowed". -/
theorem C8_allowlist_permanence_witness :
    ((AgentWallet.agentExecute (wSpend 0) 2 10 7 5).isOk =
        (AgentWallet.agentExecute (wSpend 0) 2 10 8 5).isOk ∧
     AgentWallet.agentExecute (wSpend 0) 2 10 7 5 ≠ .error "Recipient not allowed") ∧
    wAfterAdd.hasAllowlist 2 = true ∧
    (([AgentWallet.WOp.removeAllowed 1 2 3].foldl AgentWallet.wstep
        wListed).hasAllowlist 2 = true) ∧
    AgentWallet.agentExecute wListed 2 10 4 5 = .error "Recipient not allowed" := by
  refine ⟨?_, ?_, ?_, ?_⟩
  · exact C8_allowlist_permanence.1 (wSpend 0) 2 10 7 8 5 (by decide)
  · exact C8_allowlist_permanence.2.1 (wSpend 0) 1 2 3 wAfterAdd rfl
  · exact C8_allowlist_permanence.2.2.1 wListed 2 [AgentWallet.WOp.removeAllowed 1 2 3]
      (by decide)
  · exact (C8_allowlist_permanence.2.2.2 wListed 2 10 4 5 (by decide) (by decide)).2
      (by decide) (by decide) (by decide) (by decide) (by decide)

open AgentWallet in
/-- Claim C10: `canSpend` consults only activity, expiry, the per-tx
cap, the wallet balance and the reset-adjusted daily limit — never the
recipient allowlist — so for every allowlist-enforced agent (with a
usable permission) and non-allowlisted recipient there is an amount
that `canSpend` approves with (true, "OK") while `agentExecute` of
that amount to that recipient fails with "Recipient not allowed". -/
theorem C10_canSpend_ignores_allowlist :
    (∀ (st : State) (now agent amt : Nat) (al : Nat → Nat → Bool) (hl : Nat → Bool),
       canSpend { st with allowedRecipients := al, hasAllowlist := hl } now agent amt =
         canSpend st now agent amt) ∧
    (∀ (st : State) (now agent r : Nat),
       (st.permissions agent).active = true →
       ((st.permissions agent).expiry = 0 ∨ now < (st.permissions agent).expiry) →
       (if now ≥ (st.permissions agent).lastResetTime + oneDay then 0
        else (st.permissions agent).spentToday) ≤ (st.permissions agent).dailyLimit →
       st.hasAllowlist agent = true →
       st.allowedRecipients agent r = false →
       ∃ amt, canSpend st now agent amt = (true, "OK") ∧
         agentExecute st agent now r amt = .error "Recipient not allowed") := by
  constructor
  · intro st now agent amt al hl
    rfl
  · intro st now agent r h1 h2 h3 h4 h5
    refine ⟨0, ?_, ?_⟩
    · unfold canSpend
      dsimp only
      rw [← resetIfDue_spentToday] at h3
      rw [if_neg (by simp [h1]), if_neg (by rcases h2 with h | h <;> omega),
        if_neg (by omega), if_neg (by omega), ← resetIfDue_spentToday,
        if_neg (by omega)]
    · refine agentExecute_not_allowed_error st agent now r 0 h1 h2 (by omega) ?_ (by omega)
        h4 h5
      rw [← resetIfDue_spentToday] at h3
      rw [resetIfDue_dailyLimit]
      omega

/-- Witness for C10: agent 2 of `wListed` is allowlist-enforced with
only recipient 3 allowed; `canSpend` approves while the spend to
recipient 4 is rejected. -/
theorem C10_canSpend_ignores_allowlist_witness :
    ∃ amt, AgentWallet.canSpend wListed 10 2 amt = (true, "OK") ∧
      AgentWallet.agentExecute wListed 2 10 4 amt = .error "Recipient not allowed" :=
  C10_canSpend_ignores_allowlist.2 wListed 10 2 4 (by decide) (by decide) (by decide)
    (by decide) (by decide)

namespace Engine

theorem runBatchItems_length (hash : Nat → Nat) (sender now : Nat) :
    ∀ (pids : List Nat) (gw : Gateway.State),
      (runBatchItems hash gw sender now pids).2.length = pids.length := by
  intro pids
  induction pids with
  | nil => intro gw; rfl
  | cons pid rest ih =>
      intro gw
      rcases hx : Gateway.executePayment hash gw sender now pid 0 with e | ⟨gw1, tr⟩
      · rcases hseq : runBatchItems hash gw sender now rest with ⟨gwE, outs⟩
        have := ih gw
        rw [hseq] at this
        simp only [runBatchItems, hx, hseq]
        simpa using this
      · rcases hseq : runBatchItems hash gw1 sender now rest with ⟨gwE, outs⟩
        have := ih gw1
        rw [hseq] at this
        simp only [runBatchItems, hx, hseq]
        simpa using this

theorem count_true_add_count_false (l : List Bool) :
    l.count true + l.count false = l.length := by
  induction l with
  | nil => rfl
  | cons b rest ih =>
      cases b <;> simp [List.count_cons] <;> omega

end Engine

/-- Claim C6: for a Pending batch, `executeBatch` attempts every
payment id in order recording a per-index outcome, never stops at a
failed item, reports the success and failure counts, and finishes
with status Completed exactly when zero items failed and Failed
otherwise. -/
theorem C6_batch_best_effort (hash : Nat → Nat) (st : Engine.State) (now batchId : Nat)
    (gw' : Gateway.State) (outcomes : List Bool)
    (hpending : (st.batches batchId).status = .Pending)
    (hrun : Engine.runBatchItems hash st.gw st.selfAddr now
      (st.batches batchId).paymentIds = (gw', outcomes)) :
    outcomes.length = (st.batches batchId).paymentIds.length ∧
    outcomes.count true + outcomes.count false =
      (st.batches batchId).paymentIds.length ∧
    ∃ st', Engine.executeBatch hash st now batchId =
        .ok (st', outcomes.count true, outcomes.count false) ∧
      st'.gw = gw' ∧
      (st'.batches batchId).status =
        (if outcomes.count false = 0 then .Completed else .Failed) ∧
      (st'.batches batchId).executedAt = now ∧
      (∀ i, i < outcomes.length →
        st'.batchPaymentStatus batchId i = outcomes.getD i false) := by
  have hlen : outcomes.length = (st.batches batchId).paymentIds.length := by
    have := Engine.runBatchItems_length hash st.selfAddr now
      (st.batches batchId).paymentIds st.gw
    rw [hrun] at this
    exact this
  refine ⟨hlen, by rw [Engine.count_true_add_count_false]; exact hlen, ?_⟩
  refine ⟨{ st with
      gw := gw',
      batches := updFn st.batches batchId
        { (st.batches batchId) with
          executedAt := now,
          status := if outcomes.count false = 0 then .Completed else .Failed },
      batchPaymentStatus := fun b i =>
        if b = batchId ∧ i < outcomes.length then outcomes.getD i false
        else st.batchPaymentStatus b i }, ?_, rfl, ?_, ?_, ?_⟩
  · unfold Engine.executeBatch
    rw [if_neg (by simp [hpending]), hrun]
  · simp [updFn]
  · simp [updFn]
  · intro i hi
    simp [hi]

/-- Witness for C6: a batch of payments [1, 2, 3] where payment 2 is
already Cancelled reports successCount 2, failCount 1 and ends
Failed. -/
theorem C6_batch_best_effort_witness :
    ([true, false, true] : List Bool).length = (engBatch.batches 4).paymentIds.length ∧
    ∃ st', Engine.executeBatch hashId engBatch 50 4 = .ok (st', 2, 1) ∧
      (st'.batches 4).status = Engine.BatchStatus.Failed := by
  have h := C6_batch_best_effort hashId engBatch 50 4
      (Engine.runBatchItems hashId engBatch.gw engBatch.selfAddr 50
        (engBatch.batches 4).paymentIds).1 [true, false, true] (by decide) rfl
  obtain ⟨hlen, -, st', hexec, -, hstat, -, -⟩ := h
  refine ⟨hlen, st', ?_, ?_⟩
  · simpa using hexec
  · simpa using hstat

namespace Engine

theorem runLegs_error_absorb (hash : Nat → Nat) (genId : Nat → Nat → Nat → Nat → Nat → Nat)
    (sender now : Nat) :
    ∀ (legs1 : List Leg) (proofs1 : List Nat) (gw : Gateway.State) (idx : Nat)
      (r : Nat × String),
      legs1.length = proofs1.length →
      runLegs hash genId gw sender now legs1 proofs1 idx = .error r →
      ∀ legs2 proofs2,
        runLegs hash genId gw sender now (legs1 ++ legs2) (proofs1 ++ proofs2) idx =
          .error r := by
  intro legs1
  induction legs1 with
  | nil =>
      intro proofs1 gw idx r hlen h
      cases proofs1 with
      | nil => simp [runLegs] at h
      | cons pf proofs => simp at hlen
  | cons leg legs ih =>
      intro proofs1 gw idx r hlen h legs2 proofs2
      cases proofs1 with
      | nil => simp at hlen
      | cons pf proofs =>
          simp only [List.cons_append]
          simp only [runLegs] at h ⊢
          rcases hc : Gateway.createPayment genId gw sender now
              (if leg.token = 0 then leg.amount else 0) leg.toAddr leg.token leg.amount
              (now + 3600) (hash pf) with e1 | ⟨gw1, paymentId, deb⟩
          · rw [hc] at h
            dsimp only at h ⊢
            exact h
          · rw [hc] at h
            dsimp only at h ⊢
            rcases hx : Gateway.executePayment hash gw1 sender now paymentId pf with
              e2 | ⟨gw2, tr⟩
            · rw [hx] at h
              dsimp only at h ⊢
              exact h
            · rw [hx] at h
              dsimp only at h ⊢
              rcases hr : runLegs hash genId gw2 sender now legs proofs (idx + 1) with
                r' | ⟨gwE, legsE⟩
              · rw [hr] at h
                dsimp only at h
                have hlen' : legs.length = proofs.length := by simpa using hlen
                rw [ih proofs gw2 (idx + 1) r' hlen' hr legs2 proofs2]
                exact h
              · rw [hr] at h
                dsimp only at h
                cases h

theorem runLegs_error_restrict (hash : Nat → Nat) (genId : Nat → Nat → Nat → Nat → Nat → Nat)
    (sender now : Nat) :
    ∀ (legs : List Leg) (proofs : List Nat) (gw : Gateway.State) (idx j : Nat) (e : String),
      runLegs hash genId gw sender now legs proofs idx = .error (j, e) →
      idx ≤ j ∧ j + 1 - idx ≤ legs.length ∧ j + 1 - idx ≤ proofs.length ∧
      runLegs hash genId gw sender now (legs.take (j + 1 - idx)) (proofs.take (j + 1 - idx))
        idx = .error (j, e) := by
  intro legs
  induction legs with
  | nil =>
      intro proofs gw idx j e h
      simp [runLegs] at h
  | cons leg legs ih =>
      intro proofs gw idx j e h
      cases proofs with
      | nil => simp [runLegs] at h
      | cons pf proofs =>
          simp only [runLegs] at h
          rcases hc : Gateway.createPayment genId gw sender now
              (if leg.token = 0 then leg.amount else 0) leg.toAddr leg.token leg.amount
              (now + 3600) (hash pf) with e1 | ⟨gw1, paymentId, deb⟩
          · rw [hc] at h
            dsimp only at h
            simp only [Except.error.injEq, Prod.mk.injEq] at h
            obtain ⟨hj, he⟩ := h
            subst hj he
            have h1 : idx + 1 - idx = 1 := by omega
            refine ⟨le_refl idx, by simp [h1], by simp [h1], ?_⟩
            rw [h1]
            simp only [List.take_succ_cons, List.take_zero]
            simp only [runLegs]
            rw [hc]
          · rw [hc] at h
            dsimp only at h
            rcases hx : Gateway.executePayment hash gw1 sender now paymentId pf with
              e2 | ⟨gw2, tr⟩
            · rw [hx] at h
              dsimp only at h
              simp only [Except.error.injEq, Prod.mk.injEq] at h
              obtain ⟨hj, he⟩ := h
              subst hj he
              have h1 : idx + 1 - idx = 1 := by omega
              refine ⟨le_refl idx, by simp [h1], by simp [h1], ?_⟩
              rw [h1]
              simp only [List.take_succ_cons, List.take_zero]
              simp only [runLegs]
              rw [hc]
              dsimp only
              rw [hx]
            · rw [hx] at h
              dsimp only at h
              rcases hr : runLegs hash genId gw2 sender now legs proofs (idx + 1) with
                ⟨j', e'⟩ | ⟨gwE, legsE⟩
              · rw [hr] at h
                dsimp only at h
                simp only [Except.error.injEq, Prod.mk.injEq] at h
                obtain ⟨hj, he⟩ := h
                subst hj he
                obtain ⟨hle, hbl, hbp, hrest⟩ := ih proofs gw2 (idx + 1) j' e' hr
                have h1 : j' + 1 - idx = (j' + 1 - (idx + 1)) + 1 := by omega
                refine ⟨by omega, ?_, ?_, ?_⟩
                · simp only [List.length_cons]
                  omega
                · simp only [List.length_cons]
                  omega
                · rw [h1]
                  simp only [List.take_succ_cons]
                  simp only [runLegs]
                  rw [hc]
                  dsimp only
                  rw [hx]
                  dsimp only
                  rw [hrest]
              · rw [hr] at h
                dsimp only at h
                cases h

theorem runLegs_ok_legs (hash : Nat → Nat) (genId : Nat → Nat → Nat → Nat → Nat → Nat)
    (sender now : Nat) :
    ∀ (legs : List Leg) (proofs : List Nat) (gw : Gateway.State) (idx : Nat)
      (gw' : Gateway.State) (legs' : List Leg),
      legs.length = proofs.length →
      runLegs hash genId gw sender now legs proofs idx = .ok (gw', legs') →
      legs' = legs.map (fun l => { l with executed := true }) := by
  intro legs
  induction legs with
  | nil =>
      intro proofs gw idx gw' legs' hlen h
      simp only [runLegs] at h
      simp only [Except.ok.injEq, Prod.mk.injEq] at h
      simp [← h.2]
  | cons leg legs ih =>
      intro proofs gw idx gw' legs' hlen h
      cases proofs with
      | nil => simp at hlen
      | cons pf proofs =>
          simp only [runLegs] at h
          rcases hc : Gateway.createPayment genId gw sender now
              (if leg.token = 0 then leg.amount else 0) leg.toAddr leg.token leg.amount
              (now + 3600) (hash pf) with e1 | ⟨gw1, paymentId, deb⟩
          · rw [hc] at h
            dsimp only at h
            cases h
          · rw [hc] at h
            dsimp only at h
            rcases hx : Gateway.executePayment hash gw1 sender now paymentId pf with
              e2 | ⟨gw2, tr⟩
            · rw [hx] at h
              dsimp only at h
              cases h
            · rw [hx] at h
              dsimp only at h
              rcases hr : runLegs hash genId gw2 sender now legs proofs (idx + 1) with
                r' | ⟨gwE, legsE⟩
              · rw [hr] at h
                dsimp only at h
                cases h
              · rw [hr] at h
                dsimp only at h
                simp only [Except.ok.injEq, Prod.mk.injEq] at h
                have hlen' : legs.length = proofs.length := by simpa using hlen
                have := ih proofs gw2 (idx + 1) gwE legsE hlen' hr
                rw [← h.2, this]
                simp

end Engine

/-- Claim C2 (amended): for a Pending multi-leg transaction with one
proof per leg, a failure at leg i makes the whole call fail with that
leg's error and the revert rolls the committed state back to exactly
the pre-call state — the transient Executing status, the created
payments and the legs already executed inside the call included, so
the status stays Pending (never Completed) and the engine applies no
compensation of its own; legs after the failing leg are never
attempted (any suffix past leg i yields the identical failure); on
full success every leg is marked executed and the status becomes
Completed. -/
theorem C2_multileg_atomicity (hash : Nat → Nat)
    (genId : Nat → Nat → Nat → Nat → Nat → Nat) (st : Engine.State)
    (now txId : Nat) (proofs : List Nat)
    (hpending : (st.multiLegTxs txId).status = .Pending)
    (hlen : proofs.length = (st.multiLegTxs txId).legs.length) :
    (∀ i e,
      Engine.runLegs hash genId st.gw st.selfAddr now (st.multiLegTxs txId).legs proofs 0 =
        .error (i, e) →
      Engine.executeMultiLegTx hash genId st now txId proofs = .error e ∧
      Engine.commitMultiLegTx hash genId st now txId proofs = st ∧
      ((Engine.commitMultiLegTx hash genId st now txId proofs).multiLegTxs txId).status =
        .Pending ∧
      ∀ tail ptail,
        Engine.runLegs hash genId st.gw st.selfAddr now
          ((st.multiLegTxs txId).legs.take (i + 1) ++ tail)
          (proofs.take (i + 1) ++ ptail) 0 = .error (i, e)) ∧
    (∀ gw' legs',
      Engine.runLegs hash genId st.gw st.selfAddr now (st.multiLegTxs txId).legs proofs 0 =
        .ok (gw', legs') →
      Engine.executeMultiLegTx hash genId st now txId proofs = .ok
        ({ st with gw := gw', multiLegTxs := (updFn st.multiLegTxs txId (Engine.mlCompleted (st.multiLegTxs txId) legs')) }) ∧
      legs' = (st.multiLegTxs txId).legs.map (fun l => { l with executed := true }) ∧
      ((Engine.commitMultiLegTx hash genId st now txId proofs).multiLegTxs txId).status =
        .Completed ∧
      ((Engine.commitMultiLegTx hash genId st now txId proofs).multiLegTxs txId).legs =
        legs') := by
  constructor
  · intro i e hrun
    have hexec : Engine.executeMultiLegTx hash genId st now txId proofs = .error e := by
      unfold Engine.executeMultiLegTx
      rw [if_neg (by simp [hpending]), if_neg (by simp [hlen]), hrun]
    have hcommit : Engine.commitMultiLegTx hash genId st now txId proofs = st := by
      unfold Engine.commitMultiLegTx
      rw [hexec]
    refine ⟨hexec, hcommit, by rw [hcommit]; exact hpending, ?_⟩
    intro tail ptail
    obtain ⟨hle, hbl, hbp, hrest⟩ := Engine.runLegs_error_restrict hash genId st.selfAddr now
      (st.multiLegTxs txId).legs proofs st.gw 0 i e hrun
    have htk : ((st.multiLegTxs txId).legs.take (i + 1)).length =
        (proofs.take (i + 1)).length := by
      simp only [List.length_take]
      omega
    have := Engine.runLegs_error_absorb hash genId st.selfAddr now
      ((st.multiLegTxs txId).legs.take (i + 1)) (proofs.take (i + 1)) st.gw 0 (i, e) htk
      (by simpa using hrest) tail ptail
    exact this
  · intro gw' legs' hrun
    have hexec : Engine.executeMultiLegTx hash genId st now txId proofs = .ok
        ({ st with gw := gw', multiLegTxs := (updFn st.multiLegTxs txId (Engine.mlCompleted (st.multiLegTxs txId) legs')) }) := by
      unfold Engine.executeMultiLegTx Engine.mlCompleted
      rw [if_neg (by simp [hpending]), if_neg (by simp [hlen]), hrun]
    have hcommit : Engine.commitMultiLegTx hash genId st now txId proofs =
        { st with gw := gw', multiLegTxs := (updFn st.multiLegTxs txId (Engine.mlCompleted (st.multiLegTxs txId) legs')) } := by
      unfold Engine.commitMultiLegTx
      rw [hexec]
    refine ⟨hexec, ?_, ?_, ?_⟩
    · exact Engine.runLegs_ok_legs hash genId st.selfAddr now (st.multiLegTxs txId).legs
        proofs st.gw 0 gw' legs' hlen.symm hrun
    · rw [hcommit]
      simp [updFn, Engine.mlCompleted]
    · rw [hcommit]
      simp [updFn, Engine.mlCompleted]

/-- Counterexample to C2 as stated: transaction 7 of `engC2` has a
middle leg with amount 0; execution fails at leg index 1 with
"Invalid amount", and the committed state is exactly the pre-call
state — leg 0, which had executed inside the call, ends not executed
and its payment (id 100) does not exist, i.e. earlier legs ARE rolled
back, contrary to the claim. -/
theorem C2_failed_leg_rolls_back_earlier_legs :
    Engine.runLegs hashId genSeq engC2.gw 20 50 (engC2.multiLegTxs 7).legs [1, 2, 3] 0 =
      .error (1, "Invalid amount") ∧
    Engine.executeMultiLegTx hashId genSeq engC2 50 7 [1, 2, 3] = .error "Invalid amount" ∧
    Engine.commitMultiLegTx hashId genSeq engC2 50 7 [1, 2, 3] = engC2 ∧
    ((Engine.commitMultiLegTx hashId genSeq engC2 50 7 [1, 2, 3]).multiLegTxs 7).legs.all
      (fun l => !l.executed) = true ∧
    ((Engine.commitMultiLegTx hashId genSeq engC2 50 7 [1, 2, 3]).multiLegTxs 7).status =
      Engine.MultiLegStatus.Pending ∧
    (Engine.commitMultiLegTx hashId genSeq engC2 50 7 [1, 2, 3]).gw.payments 100 =
      Gateway.PaymentRequest.empty := by
  refine ⟨rfl, rfl, rfl, by decide, by decide, by decide⟩

/-- Witness for C2: the failing 3-leg transaction commits no state,
and the valid 2-leg transaction 8 completes with both legs executed. -/
theorem C2_multileg_atomicity_witness :
    Engine.commitMultiLegTx hashId genSeq engC2 50 7 [1, 2, 3] = engC2 ∧
    c2okRun.2 = (engOk.multiLegTxs 8).legs.map (fun l => { l with executed := true }) ∧
    ((Engine.commitMultiLegTx hashId genSeq engOk 50 8 [1, 2]).multiLegTxs 8).status =
      Engine.MultiLegStatus.Completed := by
  refine ⟨?_, ?_, ?_⟩
  · exact ((C2_multileg_atomicity hashId genSeq engC2 50 7 [1, 2, 3] (by decide)
      (by decide)).1 1 "Invalid amount" rfl).2.1
  · exact ((C2_multileg_atomicity hashId genSeq engOk 50 8 [1, 2] (by decide)
      (by decide)).2 c2okRun.1 c2okRun.2 rfl).2.1
  · exact ((C2_multileg_atomicity hashId genSeq engOk 50 8 [1, 2] (by decide)
      (by decide)).2 c2okRun.1 c2okRun.2 rfl).2.2.1

theorem updFn_same {β : Type} (f : Nat → β) (a : Nat) (b : β) : updFn f a b a = b := by
  simp [updFn]

theorem updFn_other {β : Type} (f : Nat → β) (a x : Nat) (b : β) (h : x ≠ a) :
    updFn f a b x = f x := by
  simp [updFn, h]

namespace Escrow

theorem releasedSum_le_totalSum (l : List Milestone) : releasedSum l ≤ totalSum l := by
  induction l with
  | nil => simp [releasedSum, totalSum]
  | cons m rest ih =>
      by_cases h : m.released
      · simp only [releasedSum, totalSum, List.filter_cons, h, List.map_cons, List.sum_cons]
        simp only [releasedSum, totalSum] at ih
        simp [ih]
      · simp only [releasedSum, totalSum, List.filter_cons, List.map_cons, List.sum_cons]
        rw [if_neg (by simpa using h)]
        simp only [releasedSum, totalSum] at ih
        omega

theorem totalSum_cons (m : Milestone) (l : List Milestone) :
    totalSum (m :: l) = m.amount + totalSum l := by
  simp [totalSum]

theorem releasedSum_cons (m : Milestone) (l : List Milestone) :
    releasedSum (m :: l) =
      (if m.released then m.amount else 0) + releasedSum l := by
  by_cases h : m.released
  · simp [releasedSum, List.filter_cons, h]
  · simp [releasedSum, List.filter_cons, h]

theorem totalSum_set (l : List Milestone) :
    ∀ (i : Nat) (x : Milestone), i < l.length →
      x.amount = (l.getD i mdefault).amount →
      totalSum (l.set i x) = totalSum l := by
  induction l with
  | nil => intro i x h; simp at h
  | cons m rest ih =>
      intro i x hi hx
      cases i with
      | zero =>
          simp only [List.set_cons_zero, totalSum_cons]
          simp only [List.getD_cons_zero] at hx
          rw [hx]
      | succ n =>
          simp only [List.set_cons_succ, totalSum_cons]
          simp only [List.getD_cons_succ] at hx
          rw [ih n x (by simpa using hi) hx]

theorem releasedSum_set (l : List Milestone) :
    ∀ (i : Nat) (x : Milestone), i < l.length →
      x.amount = (l.getD i mdefault).amount →
      x.released = (l.getD i mdefault).released →
      releasedSum (l.set i x) = releasedSum l := by
  induction l with
  | nil => intro i x h; simp at h
  | cons m rest ih =>
      intro i x hi hx hr
      cases i with
      | zero =>
          simp only [List.set_cons_zero, releasedSum_cons]
          simp only [List.getD_cons_zero] at hx hr
          rw [hx, hr]
      | succ n =>
          simp only [List.set_cons_succ, releasedSum_cons]
          simp only [List.getD_cons_succ] at hx hr
          rw [ih n x (by simpa using hi) hx hr]

theorem releasedSum_set_release (l : List Milestone) :
    ∀ (i : Nat) (x : Milestone), i < l.length →
      x.amount = (l.getD i mdefault).amount →
      (l.getD i mdefault).released = false →
      x.released = true →
      releasedSum (l.set i x) = releasedSum l + x.amount := by
  induction l with
  | nil => intro i x h; simp at h
  | cons m rest ih =>
      intro i x hi hx hold hnew
      cases i with
      | zero =>
          simp only [List.set_cons_zero, releasedSum_cons]
          simp only [List.getD_cons_zero] at hx hold
          rw [hnew, hold]
          simp
          omega
      | succ n =>
          simp only [List.set_cons_succ, releasedSum_cons]
          simp only [List.getD_cons_succ] at hx hold
          rw [ih n x (by simpa using hi) hx hold hnew]
          omega

theorem totalSum_zipFalse (pairs : List (String × Nat)) :
    totalSum (pairs.map (fun d => (⟨d.1, d.2, false, false⟩ : Milestone))) =
      (pairs.map Prod.snd).sum := by
  induction pairs with
  | nil => rfl
  | cons p rest ih => simp [totalSum_cons, ih]

theorem releasedSum_zipFalse (pairs : List (String × Nat)) :
    releasedSum (pairs.map (fun d => (⟨d.1, d.2, false, false⟩ : Milestone))) = 0 := by
  induction pairs with
  | nil => rfl
  | cons p rest ih => simp [releasedSum_cons, ih]

end Escrow

namespace Escrow

theorem createMilestoneEscrow_ok_elim (genId : Nat → Nat → Nat → Nat → Nat → Nat)
    (st : State) (caller now msgValue beneficiary arbiter token : Nat)
    (descriptions : List String) (amounts : List Nat) (st' : State) (escrowId : Nat)
    (h : createMilestoneEscrow genId st caller now msgValue beneficiary arbiter token
      descriptions amounts = .ok (st', escrowId)) :
    descriptions.length = amounts.length ∧
    0 < descriptions.length ∧ descriptions.length ≤ 20 ∧
    (token = 0 → amounts.sum ≤ msgValue) ∧
    st' = { st with
      milestoneEscrows := updFn st.milestoneEscrows escrowId
        (createdEscrow escrowId caller beneficiary arbiter token descriptions amounts),
      nonce := st.nonce + 1 } := by
  unfold createMilestoneEscrow at h
  dsimp only at h
  by_cases h1 : descriptions.length ≠ amounts.length
  · rw [if_pos h1] at h; cases h
  rw [if_neg h1] at h
  by_cases h2 : ¬ (descriptions.length > 0 ∧ descriptions.length ≤ 20)
  · rw [if_pos h2] at h; cases h
  rw [if_neg h2] at h
  by_cases h3 : token = 0 ∧ ¬ msgValue ≥ amounts.sum
  · rw [if_pos h3] at h; cases h
  rw [if_neg h3] at h
  simp only [Except.ok.injEq, Prod.mk.injEq] at h
  obtain ⟨hst, hid⟩ := h
  rw [not_not] at h2
  refine ⟨not_not.mp h1, h2.1, h2.2, ?_, ?_⟩
  · intro htok
    rcases not_and_or.mp h3 with hc | hc
    · exact absurd htok hc
    · exact not_not.mp hc
  · rw [← hst, hid]
    rfl

theorem completeMilestone_ok_elim (st : State) (caller escrowId milestoneIndex : Nat)
    (st' : State)
    (h : completeMilestone st caller escrowId milestoneIndex = .ok st') :
    (st.milestoneEscrows escrowId).status = .Active ∧
    (caller = (st.milestoneEscrows escrowId).depositor ∨
     caller = (st.milestoneEscrows escrowId).arbiter) ∧
    milestoneIndex < (st.milestoneEscrows escrowId).milestones.length ∧
    ((st.milestoneEscrows escrowId).milestones.getD milestoneIndex mdefault).completed =
      false ∧
    st' = afterComplete st escrowId milestoneIndex := by
  unfold completeMilestone at h
  dsimp only at h
  by_cases h1 : (st.milestoneEscrows escrowId).status ≠ .Active
  · rw [if_pos h1] at h; cases h
  rw [if_neg h1] at h
  by_cases h2 : ¬ (caller = (st.milestoneEscrows escrowId).depositor ∨
      caller = (st.milestoneEscrows escrowId).arbiter)
  · rw [if_pos h2] at h; cases h
  rw [if_neg h2] at h
  by_cases h3 : ¬ milestoneIndex < (st.milestoneEscrows escrowId).milestones.length
  · rw [if_pos h3] at h; cases h
  rw [if_neg h3] at h
  by_cases h4 : ((st.milestoneEscrows escrowId).milestones.getD milestoneIndex
      mdefault).completed = true
  · rw [if_pos h4] at h; cases h
  rw [if_neg h4] at h
  simp only [Except.ok.injEq] at h
  exact ⟨not_not.mp h1, not_not.mp h2, not_not.mp h3, by simpa using h4, h.symm⟩

theorem releaseMilestone_ok_elim (st : State) (escrowId milestoneIndex : Nat)
    (st' : State) (tr : List Transfer)
    (h : releaseMilestone st escrowId milestoneIndex = .ok (st', tr)) :
    (st.milestoneEscrows escrowId).status = .Active ∧
    milestoneIndex < (st.milestoneEscrows escrowId).milestones.length ∧
    ((st.milestoneEscrows escrowId).milestones.getD milestoneIndex mdefault).completed =
      true ∧
    ((st.milestoneEscrows escrowId).milestones.getD milestoneIndex mdefault).released =
      false ∧
    st' = afterRelease st escrowId milestoneIndex ∧
    tr.head? = some ⟨(st.milestoneEscrows escrowId).token,
      (st.milestoneEscrows escrowId).beneficiary,
      ((st.milestoneEscrows escrowId).milestones.getD milestoneIndex mdefault).amount -
        ((st.milestoneEscrows escrowId).milestones.getD milestoneIndex mdefault).amount *
          st.protocolFee / 10000⟩ := by
  unfold releaseMilestone at h
  dsimp only at h
  by_cases h1 : (st.milestoneEscrows escrowId).status ≠ .Active
  · rw [if_pos h1] at h; cases h
  rw [if_neg h1] at h
  by_cases h2 : ¬ milestoneIndex < (st.milestoneEscrows escrowId).milestones.length
  · rw [if_pos h2] at h; cases h
  rw [if_neg h2] at h
  by_cases h3 : ¬ ((st.milestoneEscrows escrowId).milestones.getD milestoneIndex
      mdefault).completed = true
  · rw [if_pos (by simpa using h3)] at h; cases h
  rw [if_neg (by simpa using h3)] at h
  by_cases h4 : ((st.milestoneEscrows escrowId).milestones.getD milestoneIndex
      mdefault).released = true
  · rw [if_pos h4] at h; cases h
  rw [if_neg h4] at h
  simp only [Except.ok.injEq, Prod.mk.injEq] at h
  refine ⟨not_not.mp h1, not_not.mp h2, not_not.mp h3, by simpa using h4, h.1.symm, ?_⟩
  rw [← h.2]
  rfl

end Escrow

namespace Escrow

theorem MInv_createdEscrow (escrowId caller beneficiary arbiter token : Nat)
    (descriptions : List String) (amounts : List Nat)
    (hlen : descriptions.length = amounts.length) :
    MInv (createdEscrow escrowId caller beneficiary arbiter token descriptions amounts) := by
  constructor
  · show amounts.sum = totalSum ((descriptions.zip amounts).map
      (fun d => (⟨d.1, d.2, false, false⟩ : Milestone)))
    rw [totalSum_zipFalse, List.map_snd_zip]
    omega
  · show (0 : Nat) = releasedSum ((descriptions.zip amounts).map
      (fun d => (⟨d.1, d.2, false, false⟩ : Milestone)))
    rw [releasedSum_zipFalse]

theorem MInv_afterComplete (st : State) (escrowId milestoneIndex w : Nat)
    (hidx : milestoneIndex < (st.milestoneEscrows escrowId).milestones.length)
    (h : ∀ v, MInv (st.milestoneEscrows v)) :
    MInv ((afterComplete st escrowId milestoneIndex).milestoneEscrows w) := by
  unfold afterComplete
  dsimp only
  by_cases hw : w = escrowId
  · subst hw
    rw [updFn_same]
    obtain ⟨h1, h2⟩ := h w
    refine ⟨?_, ?_⟩
    · dsimp only
      rw [totalSum_set _ milestoneIndex
        { ((st.milestoneEscrows w).milestones.getD milestoneIndex mdefault) with
          completed := true } hidx rfl]
      exact h1
    · dsimp only
      rw [releasedSum_set _ milestoneIndex
        { ((st.milestoneEscrows w).milestones.getD milestoneIndex mdefault) with
          completed := true } hidx rfl rfl]
      exact h2
  · rw [updFn_other _ _ _ _ hw]
    exact h w

theorem MInv_afterRelease (st : State) (escrowId milestoneIndex w : Nat)
    (hidx : milestoneIndex < (st.milestoneEscrows escrowId).milestones.length)
    (hrel : ((st.milestoneEscrows escrowId).milestones.getD milestoneIndex
      mdefault).released = false)
    (h : ∀ v, MInv (st.milestoneEscrows v)) :
    MInv ((afterRelease st escrowId milestoneIndex).milestoneEscrows w) := by
  unfold afterRelease
  dsimp only
  by_cases hw : w = escrowId
  · subst hw
    rw [updFn_same]
    obtain ⟨h1, h2⟩ := h w
    refine ⟨?_, ?_⟩
    · dsimp only
      rw [totalSum_set _ milestoneIndex
        { ((st.milestoneEscrows w).milestones.getD milestoneIndex mdefault) with
          released := true } hidx rfl]
      exact h1
    · dsimp only
      rw [releasedSum_set_release _ milestoneIndex
        { ((st.milestoneEscrows w).milestones.getD milestoneIndex mdefault) with
          released := true } hidx rfl hrel rfl]
      dsimp only
      omega
  · rw [updFn_other _ _ _ _ hw]
    exact h w

theorem estep_preserves_MInv (st : State) (op : EOp)
    (h : ∀ w, MInv (st.milestoneEscrows w)) :
    ∀ w, MInv ((estep st op).milestoneEscrows w) := by
  cases op with
  | createM genId caller now msgValue beneficiary arbiter token descriptions amounts =>
      unfold estep
      rcases hx : createMilestoneEscrow genId st caller now msgValue beneficiary arbiter
          token descriptions amounts with e | ⟨st', escrowId⟩
      · simp only [hx]
        exact h
      · simp only [hx]
        obtain ⟨hlen, -, -, -, hst⟩ := createMilestoneEscrow_ok_elim genId st caller now
          msgValue beneficiary arbiter token descriptions amounts st' escrowId hx
        rw [hst]
        intro w
        dsimp only
        by_cases hw : w = escrowId
        · subst hw
          rw [updFn_same]
          exact MInv_createdEscrow w caller beneficiary arbiter token descriptions
            amounts hlen
        · rw [updFn_other _ _ _ _ hw]
          exact h w
  | complete caller escrowId milestoneIndex =>
      unfold estep
      rcases hx : completeMilestone st caller escrowId milestoneIndex with e | st'
      · simp only [hx]
        exact h
      · simp only [hx]
        obtain ⟨-, -, hidx, -, hst⟩ := completeMilestone_ok_elim st caller escrowId
          milestoneIndex st' hx
        rw [hst]
        intro w
        exact MInv_afterComplete st escrowId milestoneIndex w hidx h
  | release escrowId milestoneIndex =>
      unfold estep
      rcases hx : releaseMilestone st escrowId milestoneIndex with e | ⟨st', tr⟩
      · simp only [hx]
        exact h
      · simp only [hx]
        obtain ⟨-, hidx, -, hrel, hst, -⟩ := releaseMilestone_ok_elim st escrowId
          milestoneIndex st' tr hx
        rw [hst]
        intro w
        exact MInv_afterRelease st escrowId milestoneIndex w hidx hrel h

end Escrow

/-- Claim C9: `createMilestoneEscrow` (1–20 milestones) records
exactly the milestone-amount sum as `totalAmount`; `releaseMilestone`
succeeds only for a completed, not-yet-released milestone of an Active
escrow and pays the milestone amount minus the fee to the beneficiary;
the escrow becomes Completed exactly when the last unreleased
milestone is released; and over any sequence of milestone-escrow
operations `releasedAmount` never exceeds `totalAmount`. -/
theorem C9_milestone_escrow_accounting (genId : Nat → Nat → Nat → Nat → Nat → Nat) :
    (∀ (st : Escrow.State) (caller now msgValue beneficiary arbiter token : Nat)
       (descriptions : List String) (amounts : List Nat) (st' : Escrow.State)
       (escrowId : Nat),
       Escrow.createMilestoneEscrow genId st caller now msgValue beneficiary arbiter token
           descriptions amounts = .ok (st', escrowId) →
         (st'.milestoneEscrows escrowId).totalAmount = amounts.sum ∧
         Escrow.totalSum (st'.milestoneEscrows escrowId).milestones = amounts.sum ∧
         (st'.milestoneEscrows escrowId).milestones.length = amounts.length ∧
         0 < amounts.length ∧ amounts.length ≤ 20) ∧
    (∀ (st : Escrow.State) (escrowId milestoneIndex : Nat) (st' : Escrow.State)
       (tr : List Transfer),
       Escrow.releaseMilestone st escrowId milestoneIndex = .ok (st', tr) →
         ((st.milestoneEscrows escrowId).status = .Active ∧
          milestoneIndex < (st.milestoneEscrows escrowId).milestones.length ∧
          ((st.milestoneEscrows escrowId).milestones.getD milestoneIndex
            Escrow.mdefault).completed = true ∧
          ((st.milestoneEscrows escrowId).milestones.getD milestoneIndex
            Escrow.mdefault).released = false) ∧
         tr.head? = some ⟨(st.milestoneEscrows escrowId).token,
           (st.milestoneEscrows escrowId).beneficiary,
           ((st.milestoneEscrows escrowId).milestones.getD milestoneIndex
             Escrow.mdefault).amount -
             ((st.milestoneEscrows escrowId).milestones.getD milestoneIndex
               Escrow.mdefault).amount * st.protocolFee / 10000⟩ ∧
         ((st'.milestoneEscrows escrowId).status = Escrow.MStatus.Completed ↔
           (st'.milestoneEscrows escrowId).milestones.all (fun m => m.released) = true)) ∧
    (∀ (st : Escrow.State) (ops : List Escrow.EOp),
       (∀ w, Escrow.MInv (st.milestoneEscrows w)) →
       ∀ w, Escrow.MInv ((ops.foldl Escrow.estep st).milestoneEscrows w)) ∧
    (∀ e : Escrow.MilestoneEscrow, Escrow.MInv e →
       e.releasedAmount ≤ e.totalAmount) := by
  refine ⟨?_, ?_, ?_, ?_⟩
  · intro st caller now msgValue beneficiary arbiter token descriptions amounts st'
      escrowId h
    obtain ⟨hlen, hpos, hle, -, hst⟩ := Escrow.createMilestoneEscrow_ok_elim genId st
      caller now msgValue beneficiary arbiter token descriptions amounts st' escrowId h
    rw [hst]
    dsimp only
    rw [updFn_same]
    refine ⟨rfl, ?_, ?_, by omega, by omega⟩
    · unfold Escrow.createdEscrow
      dsimp only
      rw [Escrow.totalSum_zipFalse, List.map_snd_zip]
      omega
    · unfold Escrow.createdEscrow
      dsimp only
      rw [List.length_map, List.length_zip, hlen]
      simp
  · intro st escrowId milestoneIndex st' tr h
    obtain ⟨h1, h2, h3, h4, hst, hhead⟩ := Escrow.releaseMilestone_ok_elim st escrowId
      milestoneIndex st' tr h
    refine ⟨⟨h1, h2, h3, h4⟩, hhead, ?_⟩
    rw [hst]
    unfold Escrow.afterRelease
    dsimp only
    rw [updFn_same]
    dsimp only
    split_ifs with hall
    · simp only [hall]
    · rw [h1]
      constructor
      · intro hc
        cases hc
      · intro hc
        exact absurd hc hall
  · intro st ops
    induction ops generalizing st with
    | nil => intro h; simpa using h
    | cons op rest ih =>
        intro h
        exact ih (Escrow.estep st op) (Escrow.estep_preserves_MInv st op h)
  · intro e he
    rw [he.1, he.2]
    exact Escrow.releasedSum_le_totalSum e.milestones

/-- Witness for C9: creating milestones [500, 1500, 1500, 500] locks
exactly 4000; releasing the first milestone of `esC9` leaves the
escrow short of Completed; the accounting invariant holds across a
release step and bounds `releasedAmount` by `totalAmount`. -/
theorem C9_milestone_escrow_accounting_witness :
    (esAfterCreate.milestoneEscrows 100).totalAmount = 4000 ∧
    (((Escrow.afterRelease esC9 3 0).milestoneEscrows 3).status =
        Escrow.MStatus.Completed ↔
      ((Escrow.afterRelease esC9 3 0).milestoneEscrows 3).milestones.all
        (fun m => m.released) = true) ∧
    Escrow.MInv ((([Escrow.EOp.release 3 0]).foldl Escrow.estep
      esC9).milestoneEscrows 3) ∧
    (esC9.milestoneEscrows 3).releasedAmount ≤ (esC9.milestoneEscrows 3).totalAmount := by
  have hminv : ∀ w, Escrow.MInv (esC9.milestoneEscrows w) := by
    intro w
    by_cases hw : w = 3
    · subst hw
      exact ⟨rfl, rfl⟩
    · have he : esC9.milestoneEscrows w = .empty := by
        simp [esC9, hw]
      rw [he]
      exact ⟨rfl, rfl⟩
  refine ⟨?_, ?_, ?_, ?_⟩
  · exact ((C9_milestone_escrow_accounting genSeq).1 es0 10 50 0 11 12 1
      ["a", "b", "c", "d"] [500, 1500, 1500, 500] esAfterCreate 100 rfl).1
  · exact ((C9_milestone_escrow_accounting genSeq).2.1 esC9 3 0
      (Escrow.afterRelease esC9 3 0) [⟨1, 11, 498⟩, ⟨1, 9, 2⟩] rfl).2.2
  · exact (C9_milestone_escrow_accounting genSeq).2.2.1 esC9 [Escrow.EOp.release 3 0]
      hminv 3
  · exact (C9_milestone_escrow_accounting genSeq).2.2.2 (esC9.milestoneEscrows 3)
      (hminv 3)
